import Mathlib

/-!
# Verification of the ddo-audit-service prerender pipeline

Shallow embedding of the render/cache orchestration pipeline of the
`prerender` service (`src/prerender/src/{middleware,cache,renderer,index}.js`)
and proofs about the frozen specification claims.

The JavaScript platform builtins the code relies on (`decodeURIComponent`,
the WHATWG `URL` class, `parseInt`) are embedded following their standard
semantics, restricted to the input space exercised here:

* hosts are ASCII (internationalised hostnames and IPv6 literals are not
  modelled and make parsing fail);
* the parser requires the literal `//` after a special scheme (the WHATWG
  leniency for `http:/x` and `http:x` is not modelled);
* stripping of tabs/newlines and of leading/trailing C0 controls from the
  raw URL string is not modelled.

All definitions are executable and the stateful request handler is
expressed as a pure function from its inputs (the cache-lookup outcome and
the outcome of driving the browser) to the produced HTTP response plus an
explicit description of its side effects (render invoked or not, cache
write performed or not).
-/

/-! ## Basic character helpers -/

abbrev Chars := List Char

/-- ASCII lowercasing of a single character, the behaviour of both
`Char.toLower` on ASCII data and of the WHATWG host canonicalisation. -/
def lowChar (c : Char) : Char :=
  if 65 ≤ c.toNat ∧ c.toNat ≤ 90 then Char.ofNat (c.toNat + 32) else c

def isDigitChar (c : Char) : Bool := 48 ≤ c.toNat ∧ c.toNat ≤ 57

/-- Value of a hexadecimal digit, `none` for non-hex characters. -/
def hexVal (c : Char) : Option Nat :=
  if 48 ≤ c.toNat ∧ c.toNat ≤ 57 then some (c.toNat - 48)
  else if 65 ≤ c.toNat ∧ c.toNat ≤ 70 then some (c.toNat - 55)
  else if 97 ≤ c.toNat ∧ c.toNat ≤ 102 then some (c.toNat - 87)
  else none

/-- Uppercase hexadecimal digit for a value below 16 (as used by the
WHATWG percent-encoder). -/
def hexUp (n : Nat) : Char :=
  if n < 10 then Char.ofNat (48 + n) else Char.ofNat (55 + n)

/-! ## The render engine (`renderer.js`, `PageRenderer.render`)

The browser capability is abstracted as a `NavOutcome`: either navigation
settled and the engine observed a final status / headers / final URL and
the two optional author-supplied meta tags, or the driving code threw a
JavaScript error (classified by its `name` and `message` fields exactly as
the `catch` block of `render` does). -/

structure JsError where
  name : String
  message : String
deriving DecidableEq, Repr

/-- Outcome of driving one navigation, as observed by `render` at the
point after `page.goto`/`finalResponse` (success) or in its `catch` block
(failure). In the success case `navStatus`, `navHeaders` and `finalUrl`
are the values extracted from the final response object, and
`metaStatus` / `metaRobots` are the `content` attributes of the
`prerender-status-code` / `robots` meta tags of the rendered document
(`none` when the tag is absent, `some ""` when present but empty). -/
inductive NavOutcome where
  | success (navStatus : Nat) (navHeaders : List (String × String))
      (finalUrl : String) (metaStatus : Option String)
      (metaRobots : Option String) (html : String)
  | failure (e : JsError)
deriving DecidableEq, Repr

structure RenderResult where
  html : String
  statusCode : Nat
  headers : List (String × String)
  redirected : Bool
  finalUrl : String
deriving DecidableEq, Repr

/-- JavaScript `parseInt(s, 10)`: skip leading whitespace, optional sign,
then a non-empty run of decimal digits; `NaN` (here `none`) otherwise. -/
def parseIntJs (s : String) : Option Int :=
  let l := s.data.dropWhile (fun c => c = ' ' ∨ c = '\t' ∨ c = '\n' ∨ c = '\r')
  let signAndRest : Int × Chars :=
    match l with
    | '-' :: r => (-1, r)
    | '+' :: r => (1, r)
    | _ => (1, l)
  let ds := signAndRest.2.takeWhile isDigitChar
  if ds = [] then none
  else some (signAndRest.1 * (ds.foldl (fun a c => a * 10 + (c.toNat - 48)) 0 : Nat))

/-- Record a header in a JavaScript-object style map: a later write for the
same key supersedes an earlier one (`{...headers, key: value}`). -/
def putHeader (hs : List (String × String)) (k v : String) : List (String × String) :=
  hs.filter (fun p => p.1 ≠ k) ++ [(k, v)]

def findHeader (hs : List (String × String)) (k : String) : Option String :=
  (hs.find? (fun p => p.1 = k)).map (·.2)

def timeoutHtml : String :=
  "<html><body><h1>Timeout Error</h1><p>The page took too long to load.</p></body></html>"

def connErrorHtml : String :=
  "<html><body><h1>Connection Error</h1><p>Could not connect to the requested page.</p></body></html>"

/-- The synthetic result produced for a puppeteer `TimeoutError`
(`renderer.js` lines 118-127). -/
def timeoutResult (url : String) : RenderResult :=
  { html := timeoutHtml, statusCode := 504, headers := [], redirected := false, finalUrl := url }

/-- The synthetic result produced for a navigation-level network failure
(`renderer.js` lines 129-139). -/
def connErrorResult (url : String) : RenderResult :=
  { html := connErrorHtml, statusCode := 502, headers := [], redirected := false, finalUrl := url }

/-- Does the JavaScript string `sub` occur in `s` (`String.includes`)? -/
def strContains (s sub : String) : Bool :=
  (List.range (s.data.length + 1)).any (fun i => (s.data.drop i).take sub.data.length = sub.data)

/-- `PageRenderer.render` (`renderer.js` lines 28-148), as a function of
the navigation outcome.  On success it applies the meta-tag overrides
(status override accepted when `parseInt` yields a value in `[100, 599]`,
robots directive surfaced under the `x-robots-tag` key of the result
headers) and reports `redirected` iff the final URL differs from the
input.  On failure it classifies the error: `TimeoutError` gives a
synthetic 504 result, a message containing `net::ERR_` or `NS_ERROR_`
gives a synthetic 502 result, anything else is re-thrown (`Except.error`).
The empty-string guards mirror JavaScript truthiness of
`metaInfo.prerenderStatusCode` / `metaInfo.robots`. -/
def render (url : String) (nav : NavOutcome) : Except JsError RenderResult :=
  match nav with
  | .success navStatus navHeaders finalUrl metaStatus metaRobots html =>
    let status1 : Nat :=
      match metaStatus with
      | some s =>
        if s ≠ "" then
          match parseIntJs s with
          | some n => if 100 ≤ n ∧ n ≤ 599 then n.toNat else navStatus
          | none => navStatus
        else navStatus
      | none => navStatus
    let headers1 :=
      match metaRobots with
      | some r => if r ≠ "" then putHeader navHeaders "x-robots-tag" r else navHeaders
      | none => navHeaders
    .ok { html := html, statusCode := status1, headers := headers1,
          redirected := finalUrl ≠ url, finalUrl := finalUrl }
  | .failure e =>
    if e.name = "TimeoutError" then .ok (timeoutResult url)
    else if strContains e.message "net::ERR_" ∨ strContains e.message "NS_ERROR_" then
      .ok (connErrorResult url)
    else .error e

/-! ## The snapshot cache (`cache.js`, `CacheManager`) -/

structure CacheEntry where
  html : String
  statusCode : Nat
  headers : List (String × String)
  timestamp : Nat
deriving DecidableEq, Repr

/-- Connection state of the `CacheManager`: the `connected` flag and
whether a client object exists (`this.client`). -/
structure CacheMState where
  connected : Bool
  clientPresent : Bool
deriving DecidableEq, Repr

/-- Outcome of one call against the backing Redis store (including, for
`get`, the `JSON.parse` of the fetched value): either a value or a thrown
error, which `CacheManager` catches. -/
inductive StoreOutcome (α : Type) where
  | ok (a : α)
  | storeErr (msg : String)
deriving DecidableEq, Repr

/-- `CacheManager.get` (`cache.js` lines 58-82): `null` when disconnected
or the client is absent, `null` when the store call (or JSON parse)
throws, otherwise the stored entry (or `null` on a miss). -/
def cacheGet (st : CacheMState) (raw : StoreOutcome (Option CacheEntry)) :
    Option CacheEntry :=
  if ¬ st.connected ∨ ¬ st.clientPresent then none
  else match raw with
    | .ok v => v
    | .storeErr _ => none

/-- `CacheManager.set` (`cache.js` lines 92-112): `false` when
disconnected or the client is absent, `false` when `setEx` throws,
`true` otherwise. -/
def cacheSet (st : CacheMState) (write : StoreOutcome Unit) : Bool :=
  if ¬ st.connected ∨ ¬ st.clientPresent then false
  else match write with
    | .ok _ => true
    | .storeErr _ => false

/-- `CacheManager.clear` (`cache.js` lines 117-130). -/
def cacheClear (st : CacheMState) (del : StoreOutcome Unit) : Bool :=
  if ¬ st.connected ∨ ¬ st.clientPresent then false
  else match del with
    | .ok _ => true
    | .storeErr _ => false

/-! ## The request orchestrator (`index.js`, the `app.get('*')` handler) -/

inductive RespBody where
  | page (html : String)
  | jsonErr (error : String) (message : String)
  | jsonErrHint (error : String) (hint : String)
deriving DecidableEq, Repr

structure HttpResponse where
  status : Nat
  headers : List (String × String)
  body : RespBody
deriving DecidableEq, Repr

/-- The observable effect of one request on the rest of the system. -/
structure PipelineOut where
  response : HttpResponse
  renderInvoked : Bool
  cacheLookedUp : Bool
  cacheWrite : Option (String × CacheEntry)
deriving DecidableEq, Repr

def usageHint : String :=
  "Provide URL via ?url=https://example.com or X-Prerender-URL header"

/-- Response assembly for a cache hit (`index.js` lines 30-44): `HIT` and
age diagnostic headers, the stored status, the stored `content-type` when
present and non-empty, and the stored HTML verbatim.  `now` is the clock
reading used for the age computation. -/
def hitResponse (normHdr : List (String × String)) (c : CacheEntry) (now : Nat) :
    HttpResponse :=
  let age := (now - c.timestamp) / 1000
  let hs := normHdr ++ [("X-Prerender-Cache", "HIT"), ("X-Prerender-Cache-Age", toString age)]
  let hs :=
    match findHeader c.headers "content-type" with
    | some ct => if ct ≠ "" then hs ++ [("Content-Type", ct)] else hs
    | none => hs
  { status := c.statusCode, headers := hs, body := .page c.html }

/-- Response assembly for a cache miss with a render result (`index.js`
lines 57-75): `MISS` and render-time diagnostic headers, the result
status, the result `content-type` (defaulting to HTML when the engine did
not report a non-empty one), and redirect metadata when `redirected`. -/
def missResponse (normHdr : List (String × String)) (r : RenderResult)
    (renderTime : Nat) : HttpResponse :=
  let hs := normHdr ++
    [("X-Prerender-Cache", "MISS"), ("X-Prerender-Render-Time", toString renderTime)]
  let hs :=
    match findHeader r.headers "content-type" with
    | some ct =>
      if ct ≠ "" then hs ++ [("Content-Type", ct)]
      else hs ++ [("Content-Type", "text/html; charset=utf-8")]
    | none => hs ++ [("Content-Type", "text/html; charset=utf-8")]
  let hs :=
    if r.redirected then
      hs ++ [("X-Prerender-Redirected", "true"), ("X-Prerender-Final-URL", r.finalUrl)]
    else hs
  { status := r.statusCode, headers := hs, body := .page r.html }

/-! ## `decodeURIComponent`

The ECMAScript `Decode` algorithm: each `%XX` triple contributes a byte;
a byte run must form exactly one valid UTF-8 code point (continuation
bytes must themselves come from `%XX` triples); any malformed triple or
invalid UTF-8 sequence throws a `URIError`.  The embedding is split in
two structural passes: `pctTokens` turns `%XX` triples into byte tokens
and `utf8Join` reassembles code points. -/

inductive PctTok where
  | raw (c : Char)
  | byte (b : Nat)
deriving DecidableEq, Repr

/-- First pass: replace every `%XX` triple by its byte value, failing on a
`%` not followed by two hexadecimal digits. -/
def pctTokens : Chars → Option (List PctTok)
  | [] => some []
  | '%' :: a :: b :: rest =>
    match hexVal a, hexVal b with
    | some ha, some hb => (PctTok.byte (16 * ha + hb) :: ·) <$> pctTokens rest
    | _, _ => none
  | '%' :: _ => none
  | c :: rest => (PctTok.raw c :: ·) <$> pctTokens rest

/-- Second pass: reassemble UTF-8 code points from byte tokens, enforcing
exact UTF-8 validity (continuation ranges, no overlong forms, no
surrogates, at most U+10FFFF). -/
def utf8Join : List PctTok → Option Chars
  | [] => some []
  | .raw c :: rest => (c :: ·) <$> utf8Join rest
  | .byte b1 :: [] =>
    if b1 < 0x80 then (Char.ofNat b1 :: ·) <$> utf8Join [] else none
  | .byte b1 :: .raw c2 :: rest =>
    if b1 < 0x80 then (Char.ofNat b1 :: ·) <$> utf8Join (.raw c2 :: rest) else none
  | .byte b1 :: .byte b2 :: [] =>
    if b1 < 0x80 then (Char.ofNat b1 :: ·) <$> utf8Join (.byte b2 :: ([] : List PctTok))
    else if 0xC2 ≤ b1 ∧ b1 ≤ 0xDF then
      if 0x80 ≤ b2 ∧ b2 ≤ 0xBF then
        (Char.ofNat ((b1 - 0xC0) * 64 + (b2 - 0x80)) :: ·) <$> utf8Join []
      else none
    else none
  | .byte b1 :: .byte b2 :: .raw c3 :: rest =>
    if b1 < 0x80 then (Char.ofNat b1 :: ·) <$> utf8Join (.byte b2 :: .raw c3 :: rest)
    else if 0xC2 ≤ b1 ∧ b1 ≤ 0xDF then
      if 0x80 ≤ b2 ∧ b2 ≤ 0xBF then
        (Char.ofNat ((b1 - 0xC0) * 64 + (b2 - 0x80)) :: ·) <$> utf8Join (.raw c3 :: rest)
      else none
    else none
  | .byte b1 :: .byte b2 :: .byte b3 :: [] =>
    if b1 < 0x80 then (Char.ofNat b1 :: ·) <$> utf8Join (.byte b2 :: .byte b3 :: ([] : List PctTok))
    else if 0xC2 ≤ b1 ∧ b1 ≤ 0xDF then
      if 0x80 ≤ b2 ∧ b2 ≤ 0xBF then
        (Char.ofNat ((b1 - 0xC0) * 64 + (b2 - 0x80)) :: ·) <$> utf8Join (.byte b3 :: ([] : List PctTok))
      else none
    else if 0xE0 ≤ b1 ∧ b1 ≤ 0xEF then
      if (0x80 ≤ b2 ∧ b2 ≤ 0xBF) ∧ (0x80 ≤ b3 ∧ b3 ≤ 0xBF) then
        let cp := (b1 - 0xE0) * 4096 + (b2 - 0x80) * 64 + (b3 - 0x80)
        if 0x800 ≤ cp ∧ ¬ (0xD800 ≤ cp ∧ cp ≤ 0xDFFF) then
          (Char.ofNat cp :: ·) <$> utf8Join []
        else none
      else none
    else none
  | .byte b1 :: .byte b2 :: .byte b3 :: .raw c4 :: rest =>
    if b1 < 0x80 then (Char.ofNat b1 :: ·) <$> utf8Join (.byte b2 :: .byte b3 :: .raw c4 :: rest)
    else if 0xC2 ≤ b1 ∧ b1 ≤ 0xDF then
      if 0x80 ≤ b2 ∧ b2 ≤ 0xBF then
        (Char.ofNat ((b1 - 0xC0) * 64 + (b2 - 0x80)) :: ·) <$> utf8Join (.byte b3 :: .raw c4 :: rest)
      else none
    else if 0xE0 ≤ b1 ∧ b1 ≤ 0xEF then
      if (0x80 ≤ b2 ∧ b2 ≤ 0xBF) ∧ (0x80 ≤ b3 ∧ b3 ≤ 0xBF) then
        let cp := (b1 - 0xE0) * 4096 + (b2 - 0x80) * 64 + (b3 - 0x80)
        if 0x800 ≤ cp ∧ ¬ (0xD800 ≤ cp ∧ cp ≤ 0xDFFF) then
          (Char.ofNat cp :: ·) <$> utf8Join (.raw c4 :: rest)
        else none
      else none
    else none
  | .byte b1 :: .byte b2 :: .byte b3 :: .byte b4 :: rest =>
    if b1 < 0x80 then (Char.ofNat b1 :: ·) <$> utf8Join (.byte b2 :: .byte b3 :: .byte b4 :: rest)
    else if 0xC2 ≤ b1 ∧ b1 ≤ 0xDF then
      if 0x80 ≤ b2 ∧ b2 ≤ 0xBF then
        (Char.ofNat ((b1 - 0xC0) * 64 + (b2 - 0x80)) :: ·) <$> utf8Join (.byte b3 :: .byte b4 :: rest)
      else none
    else if 0xE0 ≤ b1 ∧ b1 ≤ 0xEF then
      if (0x80 ≤ b2 ∧ b2 ≤ 0xBF) ∧ (0x80 ≤ b3 ∧ b3 ≤ 0xBF) then
        let cp := (b1 - 0xE0) * 4096 + (b2 - 0x80) * 64 + (b3 - 0x80)
        if 0x800 ≤ cp ∧ ¬ (0xD800 ≤ cp ∧ cp ≤ 0xDFFF) then
          (Char.ofNat cp :: ·) <$> utf8Join (.byte b4 :: rest)
        else none
      else none
    else if 0xF0 ≤ b1 ∧ b1 ≤ 0xF4 then
      if (0x80 ≤ b2 ∧ b2 ≤ 0xBF) ∧ (0x80 ≤ b3 ∧ b3 ≤ 0xBF) ∧ (0x80 ≤ b4 ∧ b4 ≤ 0xBF) then
        let cp := (b1 - 0xF0) * 262144 + (b2 - 0x80) * 4096 + (b3 - 0x80) * 64 + (b4 - 0x80)
        if 0x10000 ≤ cp ∧ cp ≤ 0x10FFFF then
          (Char.ofNat cp :: ·) <$> utf8Join rest
        else none
      else none
    else none

/-- `decodeURIComponent`, returning `none` where JavaScript throws. -/
def decodeUriComp (l : Chars) : Option Chars :=
  pctTokens l >>= utf8Join

/-- The decode step of `validateUrl` (`middleware.js` lines 49-55): decode
once, falling back to the raw string when decoding throws. -/
def decodeOnce (l : Chars) : Chars :=
  (decodeUriComp l).getD l

/-- Pointwise concatenation of two optional strings, `none` if either side
is `none`; the composition shape of the two decoding passes on a split
input. -/
def optAppend (o1 o2 : Option Chars) : Option Chars :=
  match o1, o2 with
  | some a, some b => some (a ++ b)
  | _, _ => none

/-! ## The WHATWG `URL` parser

Restricted model of `new URL(s)` for absolute URLs, as described in the
file header.  Special (`http`-like) URLs get an authority and a
canonicalised path; other schemes are parsed with an opaque path (enough
for the scheme check of `validateUrl` to observe them). -/

/-- ASCII letters, digits, `+` (U+002B), `-` (U+002D), `.` (U+002E). -/
def isSchemeChar (c : Char) : Bool :=
  (65 ≤ c.toNat ∧ c.toNat ≤ 90) ∨ (97 ≤ c.toNat ∧ c.toNat ≤ 122) ∨
  (48 ≤ c.toNat ∧ c.toNat ≤ 57) ∨ c.toNat = 0x2B ∨ c.toNat = 0x2D ∨ c.toNat = 0x2E

def isAlphaChar (c : Char) : Bool :=
  (65 ≤ c.toNat ∧ c.toNat ≤ 90) ∨ (97 ≤ c.toNat ∧ c.toNat ≤ 122)

/-- Separator characters inside a special URL path:
`/` (U+002F) and `\\` (U+005C). -/
def isSep (c : Char) : Bool := c.toNat = 0x2F ∨ c.toNat = 0x5C

/-- Characters terminating the authority of a special URL:
`/` `\\` `?` (U+003F) `#` (U+0023). -/
def isAuthEnd (c : Char) : Bool :=
  c.toNat = 0x2F ∨ c.toNat = 0x5C ∨ c.toNat = 0x3F ∨ c.toNat = 0x23

/-- Characters terminating the path (start of query `?` or fragment
`#`). -/
def isPathEnd (c : Char) : Bool := c.toNat = 0x3F ∨ c.toNat = 0x23

/-- WHATWG forbidden host code points, by code: controls and space
(below U+0021), `#` `/` `:` `<` `>` `?` `@` `[` `\\` `]` `^` `|`, plus
`%` (percent-encoded hosts are not modelled) and everything at or above
U+007F (IDNA is not modelled). -/
def forbiddenHostChar (c : Char) : Bool :=
  c.toNat < 0x21 ∨ c.toNat ≥ 0x7F ∨
  c.toNat = 0x23 ∨ c.toNat = 0x2F ∨ c.toNat = 0x3A ∨ c.toNat = 0x3C ∨
  c.toNat = 0x3E ∨ c.toNat = 0x3F ∨ c.toNat = 0x40 ∨ c.toNat = 0x5B ∨
  c.toNat = 0x5C ∨ c.toNat = 0x5D ∨ c.toNat = 0x5E ∨ c.toNat = 0x7C ∨
  c.toNat = 0x25

/-- The WHATWG path percent-encode set, by code: C0 controls, space,
`"` `<` `>` `` ` `` `?` `#` `{` `}`, and everything at or above
U+007F. -/
def inPathEncSet (c : Char) : Bool :=
  c.toNat < 0x20 ∨ c.toNat ≥ 0x7F ∨
  c.toNat = 0x20 ∨ c.toNat = 0x22 ∨ c.toNat = 0x3C ∨ c.toNat = 0x3E ∨
  c.toNat = 0x60 ∨ c.toNat = 0x3F ∨ c.toNat = 0x23 ∨ c.toNat = 0x7B ∨
  c.toNat = 0x7D

/-- UTF-8 bytes of one code point. -/
def utf8Bytes (c : Char) : List Nat :=
  let n := c.toNat
  if n < 0x80 then [n]
  else if n < 0x800 then [0xC0 + n / 64, 0x80 + n % 64]
  else if n < 0x10000 then [0xE0 + n / 4096, 0x80 + (n / 64) % 64, 0x80 + n % 64]
  else [0xF0 + n / 262144, 0x80 + (n / 4096) % 64, 0x80 + (n / 64) % 64, 0x80 + n % 64]

/-- Percent-encode one byte, uppercase hex as the WHATWG serialiser does. -/
def pctByte (b : Nat) : Chars := ['%', hexUp (b / 16), hexUp (b % 16)]

/-- Percent-encode a character when it lies in the path encode set, keep
it verbatim otherwise (a lone `%` is kept verbatim, as in the spec). -/
def encChar (c : Char) : Chars :=
  if inPathEncSet c then (utf8Bytes c).flatMap pctByte else [c]

/-- Split on `/` and `\`; always returns at least one (possibly empty)
piece. -/
def splitSep : Chars → List Chars
  | [] => [[]]
  | c :: r =>
    match splitSep r with
    | [] => [[c]]
    | s :: ss => if isSep c then [] :: s :: ss else (c :: s) :: ss

/-- The pieces of a path string: a leading separator is skipped (the
WHATWG path-start state), the remainder is split on separators. -/
def segsOf (l : Chars) : List Chars :=
  match l with
  | [] => []
  | c :: r => if isSep c then splitSep r else splitSep l

/-- Case-insensitive single-dot path segment (`.` or `%2e`), checked on
the percent-encoded buffer as the WHATWG path state does. -/
def dotSeg (s : Chars) : Bool :=
  s = ['.'] ∨ s.map lowChar = ['%', '2', 'e']

/-- Case-insensitive double-dot path segment. -/
def ddotSeg (s : Chars) : Bool :=
  let t := s.map lowChar
  t = ['.', '.'] ∨ t = ['.', '%', '2', 'e'] ∨ t = ['%', '2', 'e', '.'] ∨
  t = ['%', '2', 'e', '%', '2', 'e']

/-- Dot-segment elimination over the (already percent-encoded) segments,
mirroring the WHATWG path state: a double dot pops the previous segment,
a trailing dot / double dot leaves a trailing empty segment. -/
def normSegs (acc : List Chars) : List Chars → List Chars
  | [] => acc
  | s :: [] =>
    if ddotSeg s then acc.dropLast ++ [[]]
    else if dotSeg s then acc ++ [[]]
    else acc ++ [s]
  | s :: s2 :: rest =>
    if ddotSeg s then normSegs acc.dropLast (s2 :: rest)
    else if dotSeg s then normSegs acc (s2 :: rest)
    else normSegs (acc ++ [s]) (s2 :: rest)

/-- Serialise path segments: `/`-joined with a leading `/`; the empty
segment list gives `/`. -/
def pathSer (segs : List Chars) : Chars :=
  match segs with
  | [] => ['/']
  | _ => segs.flatMap (fun s => '/' :: s)

/-- The path canonicalisation of a special URL (also the behaviour of the
`pathname` setter): percent-encode, split on separators, eliminate dot
segments, serialise. -/
def canonPath (l : Chars) : Chars :=
  pathSer (normSegs [] (segsOf (l.flatMap encChar)))

structure UrlObj where
  scheme : Chars
  userinfo : Option Chars
  host : Chars
  port : Option Nat
  path : Chars
  query : Option Chars
  fragment : Option Chars
  opaquePath : Bool
deriving DecidableEq, Repr

def specialSchemes : List Chars :=
  [['h','t','t','p'], ['h','t','t','p','s'], ['w','s'], ['w','s','s'], ['f','t','p']]

def defaultPort (scheme : Chars) : Option Nat :=
  if scheme = ['h','t','t','p'] ∨ scheme = ['w','s'] then some 80
  else if scheme = ['h','t','t','p','s'] ∨ scheme = ['w','s','s'] then some 443
  else if scheme = ['f','t','p'] then some 21
  else none

/-- Scheme scan: a run of scheme characters starting with a letter,
terminated by `:`; returns the lowercased scheme and the remainder. -/
def parseScheme (l : Chars) : Option (Chars × Chars) :=
  let s := l.takeWhile isSchemeChar
  match l.dropWhile isSchemeChar with
  | ':' :: rest =>
    match s with
    | [] => none
    | c :: _ => if isAlphaChar c then some (s.map lowChar, rest) else none
  | _ => none

/-- Split an authority at its last `@` into userinfo and host-port. -/
def splitUserinfo (auth : Chars) : Option Chars × Chars :=
  match auth.reverse.takeWhile (· ≠ '@'), auth.reverse.dropWhile (· ≠ '@') with
  | _, [] => (none, auth)
  | hp, _ :: ui => (some ui.reverse, hp.reverse)

/-- Split host-port at the first `:`. -/
def splitPort (hp : Chars) : Chars × Option Chars :=
  match hp.dropWhile (· ≠ ':') with
  | [] => (hp, none)
  | _ :: p => (hp.takeWhile (· ≠ ':'), some p)

def digitsToNat (ds : Chars) : Nat :=
  Nat.ofDigits 10 ((ds.map (fun c => c.toNat - 48)).reverse)

/-- Port digits to a number below 2^16; empty digits give no port. -/
def parsePort (ds : Chars) : Option (Option Nat) :=
  if ds = [] then some none
  else if ds.all isDigitChar then
    let n := digitsToNat ds
    if n < 65536 then some (some n) else none
  else none

/-- Authority parsing for a special scheme: optional userinfo, a
non-empty host without forbidden code points (lowercased), an optional
port (elided when it is the scheme default). -/
def parseAuthority (scheme auth : Chars) : Option UrlObj :=
  let uihp := splitUserinfo auth
  let hp := splitPort uihp.2
  if hp.1 = [] then none
  else if hp.1.any forbiddenHostChar then none
  else
    match hp.2 with
    | none =>
      some { scheme := scheme, userinfo := uihp.1, host := hp.1.map lowChar, port := none,
             path := [], query := none, fragment := none, opaquePath := false }
    | some ds =>
      match parsePort ds with
      | none => none
      | some p =>
        let p := if p = defaultPort scheme then none else p
        some { scheme := scheme, userinfo := uihp.1, host := hp.1.map lowChar, port := p,
               path := [], query := none, fragment := none, opaquePath := false }

/-- Query/fragment scan on the remainder after the path. -/
def parseQF (l : Chars) : Option Chars × Option Chars :=
  match l with
  | '?' :: r =>
    match r.dropWhile (· ≠ '#') with
    | [] => (some r, none)
    | _ :: f => (some (r.takeWhile (· ≠ '#')), some f)
  | '#' :: r => (none, some r)
  | _ => (none, none)

/-- The part of `new URL(s)` after the scheme has been read: authority,
path, query and fragment for a special scheme; an opaque path
otherwise. -/
def parseAfterScheme (scheme r1 : Chars) : Option UrlObj :=
  if scheme ∈ specialSchemes then
    match r1 with
    | c1 :: c2 :: r2 =>
      if c1 = '/' ∧ c2 = '/' then
        let r3 := r2.dropWhile isSep
        let auth := r3.takeWhile (fun c => ¬ isAuthEnd c)
        let r4 := r3.dropWhile (fun c => ¬ isAuthEnd c)
        match parseAuthority scheme auth with
        | none => none
        | some u =>
          let pathRaw := r4.takeWhile (fun c => ¬ isPathEnd c)
          let r5 := r4.dropWhile (fun c => ¬ isPathEnd c)
          let qf := parseQF r5
          some { u with path := canonPath pathRaw, query := qf.1, fragment := qf.2 }
      else none
    | _ => none
  else
    let pathRaw := r1.takeWhile (fun c => ¬ isPathEnd c)
    let r5 := r1.dropWhile (fun c => ¬ isPathEnd c)
    let qf := parseQF r5
    some { scheme := scheme, userinfo := none, host := [], port := none,
           path := pathRaw, query := qf.1, fragment := qf.2, opaquePath := true }

/-- `new URL(s)` on an absolute URL string. -/
def parseUrl (l : Chars) : Option UrlObj :=
  match parseScheme l with
  | none => none
  | some (scheme, r1) => parseAfterScheme scheme r1

def natDigits (n : Nat) : Chars :=
  if n = 0 then ['0'] else (Nat.digits 10 n).reverse.map (fun d => Char.ofNat (48 + d))

/-- Serialisation of an optional port: `:` followed by its decimal
digits, nothing when absent. -/
def portSer : Option Nat → Chars
  | some n => ':' :: natDigits n
  | none => []

/-- `url.origin` for a special URL (scheme, host, non-default port). -/
def originChars (u : UrlObj) : Chars :=
  u.scheme ++ [':', '/', '/'] ++ u.host ++ portSer u.port

/-- `url.toString()` / `url.href`. -/
def serializeUrl (u : UrlObj) : Chars :=
  (if u.opaquePath then u.scheme ++ [':'] ++ u.path
   else
     u.scheme ++ [':', '/', '/'] ++
     (match u.userinfo with
      | some ui => ui ++ ['@']
      | none => []) ++
     u.host ++ portSer u.port ++
     u.path) ++
  (match u.query with
   | some q => '?' :: q
   | none => []) ++
  (match u.fragment with
   | some f => '#' :: f
   | none => [])

/-! ## URL validation (`middleware.js`, `validateUrl`) -/

inductive ValidOut where
  | invalid (error : String)
  | valid (url : String)
deriving DecidableEq, Repr

/-- The truncate-at-`&` + `pathname` setter step of `validateUrl`
(`middleware.js` lines 62-68).  On an opaque-path URL the `pathname`
setter is a no-op, so the object is returned unchanged. -/
def ampTruncate (u : UrlObj) : UrlObj :=
  if u.path.contains '&' then
    if u.opaquePath then u
    else { u with path := canonPath (u.path.takeWhile (· ≠ '&')) }
  else u

/-- JavaScript `String.prototype.endsWith`. -/
def strEndsWith (s t : String) : Bool :=
  t.data.length ≤ s.data.length ∧
  s.data.drop (s.data.length - t.data.length) = t.data

def hostAllowed (allowedDomains : List String) (hostname : String) : Bool :=
  allowedDomains.any (fun d => hostname = d ∨ strEndsWith hostname ("." ++ d))

/-- `validateUrl` (`middleware.js` lines 41-96): reject missing/empty
input, percent-decode once with raw fallback, parse, strip query and
fragment, truncate the path at the first `&`, enforce the scheme and the
optional domain allowlist, and return `origin + pathname`.  The
`allowedDomains` parameter is the configured allowlist, `[]` when the
configuration has none. -/
def validateUrl (allowedDomains : List String) (url : Option String) : ValidOut :=
  match url with
  | none => .invalid "No URL provided"
  | some u =>
    if u = "" then .invalid "No URL provided"
    else
      match parseUrl (decodeOnce u.data) with
      | none => .invalid "Invalid URL format"
      | some obj0 =>
        let obj := ampTruncate { obj0 with query := none, fragment := none }
        if ¬ (obj.scheme ++ [':'] = "http:".data ∨ obj.scheme ++ [':'] = "https:".data) then
          .invalid "Only HTTP and HTTPS protocols are allowed"
        else
          let hostname := String.mk obj.host
          if allowedDomains ≠ [] ∧ ¬ hostAllowed allowedDomains hostname then
            .invalid ("Domain " ++ hostname ++ " is not in the allowed domains list")
          else
            .valid (String.mk (originChars obj ++ obj.path))

/-! ## Cache key derivation (`cache.js`, `CacheManager.normalizeUrl`) -/

/-- Split a query string on `&`. -/
def splitAmp : Chars → List Chars
  | [] => [[]]
  | c :: r =>
    match splitAmp r with
    | [] => [[c]]
    | s :: ss => if c = '&' then [] :: s :: ss else (c :: s) :: ss

/-- One `name=value` pair of `URLSearchParams` (value empty when `=` is
absent), serialised back as `name=value`. -/
def pairSer (p : Chars) : Chars :=
  p.takeWhile (· ≠ '=') ++ ['='] ++
  (match p.dropWhile (· ≠ '=') with
   | [] => []
   | _ :: v => v)

def pairNameLe (a b : Chars) : Bool :=
  ¬ String.mk (b.takeWhile (· ≠ '=')) < String.mk (a.takeWhile (· ≠ '='))

/-- `urlObj.searchParams.sort()` followed by re-serialisation of the
query: split on `&`, drop empty pieces, stable-sort by parameter name,
rejoin (an empty parameter list removes the query entirely).  The
form-urlencoded re-encoding of names and values is not modelled; on
query-free URLs (the only ones reaching this code from the Resolver) the
whole step is the identity. -/
def jsSortQuery (q : Option Chars) : Option Chars :=
  match q with
  | none => none
  | some qs =>
    let pairs := (splitAmp qs).filter (· ≠ [])
    match pairs with
    | [] => none
    | _ =>
      some (List.intercalate ['&'] ((pairs.mergeSort pairNameLe).map pairSer))

/-- `CacheManager.normalizeUrl` (`cache.js` lines 43-52): re-parse, drop
the fragment, sort the query parameters, re-serialise; return the input
unchanged when parsing fails. -/
def cacheNormalizeUrl (url : String) : String :=
  match parseUrl url.data with
  | none => url
  | some u =>
    String.mk (serializeUrl { u with fragment := none, query := jsSortQuery u.query })

/-- The cache key used by `CacheManager.set`/`get`/`clear`
(`cache.js` lines 64, 98, 123). -/
def cacheKey (url : String) : String :=
  "prerender:" ++ cacheNormalizeUrl url

/-! ## The request pipeline (`index.js` handler composed with
`validateRequest`) -/

/-- One request through `validateRequest` and the `app.get('*')` handler.
`extracted` is the result of `extractUrl`, `cached` the outcome of the
cache lookup for the validated URL, `nav` the browser outcome consumed on
a miss, `now` the clock reading, `renderTime` the measured render
duration. -/
def runPipeline (allowedDomains : List String) (extracted : Option String)
    (cached : Option CacheEntry) (nav : NavOutcome) (now renderTime : Nat) :
    PipelineOut :=
  match validateUrl allowedDomains extracted with
  | .invalid e =>
    { response := { status := 400, headers := [], body := .jsonErrHint e usageHint },
      renderInvoked := false, cacheLookedUp := false, cacheWrite := none }
  | .valid turl =>
    let normHdr := [("X-Prerender-Normalized-URL", turl)]
    match cached with
    | some c =>
      { response := hitResponse normHdr c now,
        renderInvoked := false, cacheLookedUp := true, cacheWrite := none }
    | none =>
      match render turl nav with
      | .error e =>
        { response := { status := 500, headers := normHdr,
                        body := .jsonErr "Failed to render page" e.message },
          renderInvoked := true, cacheLookedUp := true, cacheWrite := none }
      | .ok r =>
        { response := missResponse normHdr r renderTime,
          renderInvoked := true, cacheLookedUp := true,
          cacheWrite := some (cacheKey turl,
            { html := r.html, statusCode := r.statusCode,
              headers := r.headers, timestamp := now }) }

/-- Characters a percent-escape consists of: `%` or an uppercase hex
digit. -/
def PctCharP (c : Char) : Prop :=
  c.toNat = 0x25 ∨ (48 ≤ c.toNat ∧ c.toNat ≤ 57) ∨ (65 ≤ c.toNat ∧ c.toNat ≤ 70)

/-- Strip the query and fragment of a parsed URL (the first thing
`validateUrl` does with a parse result). -/
def stripQF (u : UrlObj) : UrlObj :=
  { u with query := none, fragment := none }

/-- Navigation outcome of a successful 200 render of a page whose
document carries `<meta name="robots" content="noindex">`. -/
def robotsNav : NavOutcome :=
  .success 200 [("content-type", "text/html; charset=utf-8")]
    "https://example.com/page" none (some "noindex") "<html><body>app</body></html>"

/-- A cache entry as written for `robotsNav` (headers include the
`x-robots-tag` computed by the render engine). -/
def robotsEntry : CacheEntry :=
  { html := "<html><body>app</body></html>", statusCode := 200,
    headers := [("content-type", "text/html; charset=utf-8"), ("x-robots-tag", "noindex")],
    timestamp := 9 }

/-! ## Helper lemmas -/

theorem parseIntJs_empty : parseIntJs "" = none := rfl

theorem append_colon_iff (s t : Chars) : s ++ [':'] = t ++ [':'] ↔ s = t := by
  constructor
  · intro h
    have h2 := congrArg List.dropLast h
    simpa [List.dropLast_concat] using h2
  · intro h
    rw [h]

@[simp] theorem ampTruncate_scheme (u : UrlObj) : (ampTruncate u).scheme = u.scheme := by
  unfold ampTruncate
  split <;> [skip; rfl]
  split <;> rfl

@[simp] theorem ampTruncate_host (u : UrlObj) : (ampTruncate u).host = u.host := by
  unfold ampTruncate
  split <;> [skip; rfl]
  split <;> rfl

@[simp] theorem ampTruncate_port (u : UrlObj) : (ampTruncate u).port = u.port := by
  unfold ampTruncate
  split <;> [skip; rfl]
  split <;> rfl

@[simp] theorem ampTruncate_opaquePath (u : UrlObj) : (ampTruncate u).opaquePath = u.opaquePath := by
  unfold ampTruncate
  split <;> [skip; rfl]
  split <;> rfl

/-! ## Claim C6: best-effort cache degradation -/

/-- C6: when the cache is disabled (not connected or no client object),
`get` returns `none`, `set` and `clear` return `false`; and whenever the
backing store call throws at call time, the same degraded results are
returned.  No error propagates: all three operations are total
functions. -/
theorem C6_cache_degrades (st st2 : CacheMState)
    (raw : StoreOutcome (Option CacheEntry)) (w d : StoreOutcome Unit)
    (m1 m2 m3 : String)
    (hdis : ¬ st.connected ∨ ¬ st.clientPresent) :
    cacheGet st raw = none ∧ cacheSet st w = false ∧ cacheClear st d = false ∧
    cacheGet st2 (.storeErr m1) = none ∧ cacheSet st2 (.storeErr m2) = false ∧
    cacheClear st2 (.storeErr m3) = false := by
  refine ⟨?_, ?_, ?_, ?_, ?_, ?_⟩
  · unfold cacheGet; rw [if_pos hdis]
  · unfold cacheSet; rw [if_pos hdis]
  · unfold cacheClear; rw [if_pos hdis]
  · unfold cacheGet; split <;> rfl
  · unfold cacheSet; split <;> rfl
  · unfold cacheClear; split <;> rfl

/-- Witness for C6 at a concrete disabled state and store errors. -/
theorem C6_cache_degrades_witness :
    cacheGet ⟨false, true⟩ (.ok (some ⟨"x", 200, [], 0⟩)) = none ∧
    cacheSet ⟨false, true⟩ (.ok ()) = false ∧
    cacheClear ⟨false, true⟩ (.ok ()) = false ∧
    cacheGet ⟨true, true⟩ (.storeErr "boom") = none ∧
    cacheSet ⟨true, true⟩ (.storeErr "boom2") = false ∧
    cacheClear ⟨true, true⟩ (.storeErr "boom3") = false :=
  C6_cache_degrades ⟨false, true⟩ ⟨true, true⟩ (.ok (some ⟨"x", 200, [], 0⟩))
    (.ok ()) (.ok ()) "boom" "boom2" "boom3" (by simp)

/-! ## Claim C7: prerender-status-code meta override -/

/-- C7: whenever the rendered document carries a
`prerender-status-code` meta tag whose content parses (via `parseInt`) to
an integer in `[100, 599]`, the render result's status code is that
value, regardless of the navigation status, and the miss response of the
orchestrator carries it as the response status. -/
theorem C7_status_override (url finalUrl html : String) (navStatus : Nat)
    (hdrs normHdr : List (String × String)) (robots : Option String)
    (s : String) (n : Int) (renderTime : Nat)
    (hp : parseIntJs s = some n) (h1 : 100 ≤ n) (h2 : n ≤ 599) :
    ∃ r, render url (.success navStatus hdrs finalUrl (some s) robots html) = .ok r ∧
      (r.statusCode : Int) = n ∧ (missResponse normHdr r renderTime).status = r.statusCode := by
  have hne : s ≠ "" := by
    intro he
    rw [he, parseIntJs_empty] at hp
    exact Option.noConfusion hp
  refine ⟨_, rfl, ?_, ?_⟩
  · simp only [render, hne, if_pos, hp]
    simp only [ne_eq, hne, not_false_eq_true, if_true]
    rw [if_pos ⟨h1, h2⟩]
    have : (0 : Int) ≤ n := le_trans (by norm_num) h1
    simp [Int.toNat_of_nonneg this]
  · simp [missResponse]

/-- Witness for C7: content `"404"` overrides a successful 200
navigation. -/
theorem C7_status_override_witness :
    ∃ r, render "https://example.com/page"
        (.success 200 [("content-type", "text/html")] "https://example.com/page"
          (some "404") none "<html></html>") = .ok r ∧
      (r.statusCode : Int) = 404 ∧ (missResponse [] r 10).status = r.statusCode :=
  C7_status_override "https://example.com/page" "https://example.com/page"
    "<html></html>" 200 [("content-type", "text/html")] [] none "404" 404 10
    (by decide) (by decide) (by decide)

/-! ## Claim C3: failure mapping of the render engine -/

/-- C3: a `TimeoutError` makes `render` return (not throw) the synthetic
504 result and the orchestrator caches it; an error whose message carries
a navigation-failure marker (`net::ERR_` / `NS_ERROR_`) returns the
synthetic 502 result, also cached; any other error propagates out of
`render`, the orchestrator answers 500 JSON and writes nothing to the
cache. -/
theorem C3_failure_mapping (ad : List String) (u turl : String) (now rt : Nat)
    (e1 e2 e3 : JsError)
    (hv : validateUrl ad (some u) = .valid turl)
    (h1 : e1.name = "TimeoutError")
    (h2n : e2.name ≠ "TimeoutError")
    (h2m : strContains e2.message "net::ERR_" ∨ strContains e2.message "NS_ERROR_")
    (h3n : e3.name ≠ "TimeoutError")
    (h3m : ¬ (strContains e3.message "net::ERR_" ∨ strContains e3.message "NS_ERROR_")) :
    render turl (.failure e1) = .ok (timeoutResult turl) ∧
    (runPipeline ad (some u) none (.failure e1) now rt).response.status = 504 ∧
    (runPipeline ad (some u) none (.failure e1) now rt).cacheWrite =
      some (cacheKey turl, ⟨timeoutHtml, 504, [], now⟩) ∧
    render turl (.failure e2) = .ok (connErrorResult turl) ∧
    (runPipeline ad (some u) none (.failure e2) now rt).response.status = 502 ∧
    (runPipeline ad (some u) none (.failure e2) now rt).cacheWrite =
      some (cacheKey turl, ⟨connErrorHtml, 502, [], now⟩) ∧
    render turl (.failure e3) = .error e3 ∧
    (runPipeline ad (some u) none (.failure e3) now rt).response =
      ⟨500, [("X-Prerender-Normalized-URL", turl)],
        .jsonErr "Failed to render page" e3.message⟩ ∧
    (runPipeline ad (some u) none (.failure e3) now rt).cacheWrite = none := by
  have hr1 : render turl (.failure e1) = .ok (timeoutResult turl) := by
    simp [render, h1]
  have hr2 : render turl (.failure e2) = .ok (connErrorResult turl) := by
    simp [render, h2n, h2m]
  have hr3 : render turl (.failure e3) = .error e3 := by
    simp [render, h3n, h3m]
  refine ⟨hr1, ?_, ?_, hr2, ?_, ?_, hr3, ?_, ?_⟩ <;>
    simp [runPipeline, hv, hr1, hr2, hr3, missResponse, timeoutResult, connErrorResult,
      findHeader]

/-- Witness for C3 at concrete inputs for all three failure classes. -/
theorem C3_failure_mapping_witness :
    render "https://example.com/page" (.failure ⟨"TimeoutError", "Navigation timeout"⟩) =
      .ok (timeoutResult "https://example.com/page") ∧
    (runPipeline [] (some "https://example.com/page") none
      (.failure ⟨"TimeoutError", "Navigation timeout"⟩) 5000 100).response.status = 504 ∧
    (runPipeline [] (some "https://example.com/page") none
      (.failure ⟨"TimeoutError", "Navigation timeout"⟩) 5000 100).cacheWrite =
      some (cacheKey "https://example.com/page", ⟨timeoutHtml, 504, [], 5000⟩) ∧
    render "https://example.com/page" (.failure ⟨"Error", "net::ERR_NAME_NOT_RESOLVED"⟩) =
      .ok (connErrorResult "https://example.com/page") ∧
    (runPipeline [] (some "https://example.com/page") none
      (.failure ⟨"Error", "net::ERR_NAME_NOT_RESOLVED"⟩) 5000 100).response.status = 502 ∧
    (runPipeline [] (some "https://example.com/page") none
      (.failure ⟨"Error", "net::ERR_NAME_NOT_RESOLVED"⟩) 5000 100).cacheWrite =
      some (cacheKey "https://example.com/page", ⟨connErrorHtml, 502, [], 5000⟩) ∧
    render "https://example.com/page" (.failure ⟨"Error", "Protocol error: crash"⟩) =
      .error ⟨"Error", "Protocol error: crash"⟩ ∧
    (runPipeline [] (some "https://example.com/page") none
      (.failure ⟨"Error", "Protocol error: crash"⟩) 5000 100).response =
      ⟨500, [("X-Prerender-Normalized-URL", "https://example.com/page")],
        .jsonErr "Failed to render page" "Protocol error: crash"⟩ ∧
    (runPipeline [] (some "https://example.com/page") none
      (.failure ⟨"Error", "Protocol error: crash"⟩) 5000 100).cacheWrite = none :=
  C3_failure_mapping [] "https://example.com/page" "https://example.com/page" 5000 100
    ⟨"TimeoutError", "Navigation timeout"⟩ ⟨"Error", "net::ERR_NAME_NOT_RESOLVED"⟩
    ⟨"Error", "Protocol error: crash"⟩ (by decide) rfl (by decide) (by decide)
    (by decide) (by decide)

/-! ## Claim C10: shape of synthetic results and redirect headers -/

/-- C10: both synthetic results carry `redirected = false`, `finalUrl`
equal to the requested URL and an empty headers map, and the
orchestrator's miss response for them never carries the
`X-Prerender-Redirected` / `X-Prerender-Final-URL` headers. -/
theorem C10_synthetic_shape (ad : List String) (u turl : String) (now rt : Nat)
    (e1 e2 : JsError)
    (hv : validateUrl ad (some u) = .valid turl)
    (h1 : e1.name = "TimeoutError")
    (h2n : e2.name ≠ "TimeoutError")
    (h2m : strContains e2.message "net::ERR_" ∨ strContains e2.message "NS_ERROR_") :
    (timeoutResult turl).redirected = false ∧
    (timeoutResult turl).finalUrl = turl ∧
    (timeoutResult turl).headers = [] ∧
    (connErrorResult turl).redirected = false ∧
    (connErrorResult turl).finalUrl = turl ∧
    (connErrorResult turl).headers = [] ∧
    render turl (.failure e1) = .ok (timeoutResult turl) ∧
    render turl (.failure e2) = .ok (connErrorResult turl) ∧
    findHeader (runPipeline ad (some u) none (.failure e1) now rt).response.headers
      "X-Prerender-Redirected" = none ∧
    findHeader (runPipeline ad (some u) none (.failure e1) now rt).response.headers
      "X-Prerender-Final-URL" = none ∧
    findHeader (runPipeline ad (some u) none (.failure e2) now rt).response.headers
      "X-Prerender-Redirected" = none ∧
    findHeader (runPipeline ad (some u) none (.failure e2) now rt).response.headers
      "X-Prerender-Final-URL" = none := by
  have hr1 : render turl (.failure e1) = .ok (timeoutResult turl) := by
    simp [render, h1]
  have hr2 : render turl (.failure e2) = .ok (connErrorResult turl) := by
    simp [render, h2n, h2m]
  refine ⟨rfl, rfl, rfl, rfl, rfl, rfl, hr1, hr2, ?_, ?_, ?_, ?_⟩ <;>
    simp [runPipeline, hv, hr1, hr2, missResponse, timeoutResult, connErrorResult,
      findHeader, List.find?]

/-- Witness for C10 at concrete inputs. -/
theorem C10_synthetic_shape_witness :
    (timeoutResult "https://example.com/p").redirected = false ∧
    (timeoutResult "https://example.com/p").finalUrl = "https://example.com/p" ∧
    (timeoutResult "https://example.com/p").headers = [] ∧
    (connErrorResult "https://example.com/p").redirected = false ∧
    (connErrorResult "https://example.com/p").finalUrl = "https://example.com/p" ∧
    (connErrorResult "https://example.com/p").headers = [] ∧
    render "https://example.com/p" (.failure ⟨"TimeoutError", "t"⟩) =
      .ok (timeoutResult "https://example.com/p") ∧
    render "https://example.com/p" (.failure ⟨"Error", "net::ERR_CONNECTION_REFUSED"⟩) =
      .ok (connErrorResult "https://example.com/p") ∧
    findHeader (runPipeline [] (some "https://example.com/p") none
      (.failure ⟨"TimeoutError", "t"⟩) 7 3).response.headers "X-Prerender-Redirected" = none ∧
    findHeader (runPipeline [] (some "https://example.com/p") none
      (.failure ⟨"TimeoutError", "t"⟩) 7 3).response.headers "X-Prerender-Final-URL" = none ∧
    findHeader (runPipeline [] (some "https://example.com/p") none
      (.failure ⟨"Error", "net::ERR_CONNECTION_REFUSED"⟩) 7 3).response.headers
      "X-Prerender-Redirected" = none ∧
    findHeader (runPipeline [] (some "https://example.com/p") none
      (.failure ⟨"Error", "net::ERR_CONNECTION_REFUSED"⟩) 7 3).response.headers
      "X-Prerender-Final-URL" = none :=
  C10_synthetic_shape [] "https://example.com/p" "https://example.com/p" 7 3
    ⟨"TimeoutError", "t"⟩ ⟨"Error", "net::ERR_CONNECTION_REFUSED"⟩
    (by decide) rfl (by decide) (by decide)

/-! ## Claim C1: robots meta tag surfaced as `x-robots-tag` header -/

/-- C1 (evidence of the divergence): for a page with
`<meta name="robots" content="noindex">` the render engine does put
`x-robots-tag: noindex` into the render result's headers — and that map
is stored in the cache — but the orchestrator forwards only
`content-type`, so neither the cache-miss HTTP response nor the cache-hit
HTTP response for the stored entry carries an `x-robots-tag` header. -/
theorem C1_robots_header_dropped :
    (render "https://example.com/page" robotsNav).map
      (fun r => findHeader r.headers "x-robots-tag") = .ok (some "noindex") ∧
    ((runPipeline [] (some "https://example.com/page") none robotsNav 9 4).cacheWrite.map
      (fun w => findHeader w.2.headers "x-robots-tag")) = some (some "noindex") ∧
    findHeader (runPipeline [] (some "https://example.com/page") none robotsNav 9 4).response.headers
      "x-robots-tag" = none ∧
    findHeader (runPipeline [] (some "https://example.com/page") (some robotsEntry) robotsNav 9 4).response.headers
      "x-robots-tag" = none := by
  refine ⟨rfl, by decide, by decide, by decide⟩

/-! ## Claim C4: non-web schemes rejected before cache and engine -/

/-- C4: whenever the extracted URL parses but its scheme is neither
`http` nor `https`, validation fails with the dedicated error and the
pipeline answers 400 without looking up the cache, without writing to it
and without invoking the render engine. -/
theorem C4_scheme_rejected (ad : List String) (u : String) (p : UrlObj)
    (cached : Option CacheEntry) (nav : NavOutcome) (now rt : Nat)
    (hu : u ≠ "")
    (hp : parseUrl (decodeOnce u.data) = some p)
    (hs1 : p.scheme ≠ "http".data) (hs2 : p.scheme ≠ "https".data) :
    validateUrl ad (some u) = .invalid "Only HTTP and HTTPS protocols are allowed" ∧
    runPipeline ad (some u) cached nav now rt =
      ⟨⟨400, [], .jsonErrHint "Only HTTP and HTTPS protocols are allowed" usageHint⟩,
        false, false, none⟩ := by
  have hv : validateUrl ad (some u) = .invalid "Only HTTP and HTTPS protocols are allowed" := by
    simp only [validateUrl, hu, if_neg, ite_false, reduceIte]
    rw [hp]
    simp only [ampTruncate_scheme]
    rw [if_pos]
    rintro (h | h)
    · exact hs1 ((append_colon_iff _ _).mp h)
    · exact hs2 ((append_colon_iff _ _).mp h)
  exact ⟨hv, by simp [runPipeline, hv]⟩

/-- Witness for C4: `ftp://example.com` is rejected with the protocol
error and reaches neither cache nor engine. -/
theorem C4_scheme_rejected_witness :
    validateUrl [] (some "ftp://example.com") =
      .invalid "Only HTTP and HTTPS protocols are allowed" ∧
    runPipeline [] (some "ftp://example.com") none
      (.success 200 [] "ftp://example.com" none none "x") 3 1 =
      ⟨⟨400, [], .jsonErrHint "Only HTTP and HTTPS protocols are allowed" usageHint⟩,
        false, false, none⟩ :=
  C4_scheme_rejected [] "ftp://example.com"
    ⟨"ftp".data, none, "example.com".data, none, "/".data, none, none, false⟩
    none (.success 200 [] "ftp://example.com" none none "x") 3 1
    (by decide) (by decide) (by decide) (by decide)

/-! ## Claim C8: domain allowlist semantics -/

/-- C8: with the allowlist `{example.com}`, a parsed web URL is accepted
iff its hostname equals `example.com` or is a dot-suffix subdomain of it;
a rejected hostname is named in the error.  The four concrete example
URLs of the specification behave as stated. -/
theorem C8_allowlist (u : String) (p : UrlObj)
    (hu : u ≠ "")
    (hp : parseUrl (decodeOnce u.data) = some p)
    (hs : p.scheme = "http".data ∨ p.scheme = "https".data) :
    ((String.mk p.host = "example.com" ∨ strEndsWith (String.mk p.host) ".example.com") →
      ∃ c, validateUrl ["example.com"] (some u) = .valid c) ∧
    (¬ (String.mk p.host = "example.com" ∨ strEndsWith (String.mk p.host) ".example.com") →
      validateUrl ["example.com"] (some u) =
        .invalid ("Domain " ++ String.mk p.host ++ " is not in the allowed domains list")) ∧
    validateUrl ["example.com"] (some "https://example.com/x") =
      .valid "https://example.com/x" ∧
    validateUrl ["example.com"] (some "https://sub.example.com/x") =
      .valid "https://sub.example.com/x" ∧
    validateUrl ["example.com"] (some "https://evil.com/x") =
      .invalid "Domain evil.com is not in the allowed domains list" ∧
    validateUrl ["example.com"] (some "https://notexample.com/x") =
      .invalid "Domain notexample.com is not in the allowed domains list" := by
  have hdot : ("." ++ "example.com" : String) = ".example.com" := rfl
  have hcond : ∀ h : String,
      hostAllowed ["example.com"] h = true ↔
      (h = "example.com" ∨ strEndsWith h ".example.com") := by
    intro h
    simp [hostAllowed, hdot]
  have hscheme : p.scheme ++ [':'] = "http:".data ∨ p.scheme ++ [':'] = "https:".data := by
    rcases hs with h | h
    · exact Or.inl (by rw [h]; rfl)
    · exact Or.inr (by rw [h]; rfl)
  refine ⟨?_, ?_, by decide, by decide, by decide, by decide⟩
  · intro hA
    have hv2 : validateUrl ["example.com"] (some u) =
        .valid (String.mk
          (originChars (ampTruncate { p with query := none, fragment := none }) ++
           (ampTruncate { p with query := none, fragment := none }).path)) := by
      simp only [validateUrl, hu, if_neg, ite_false, reduceIte]
      rw [hp]
      simp only [ampTruncate_scheme, ampTruncate_host]
      rw [if_neg (not_not_intro hscheme)]
      rw [if_neg]
      intro hcontra
      exact hcontra.2 ((hcond (String.mk p.host)).mpr hA)
    exact ⟨_, hv2⟩
  · intro hN
    simp only [validateUrl, hu, if_neg, ite_false, reduceIte]
    rw [hp]
    simp only [ampTruncate_scheme, ampTruncate_host]
    rw [if_neg (not_not_intro hscheme)]
    rw [if_pos]
    constructor
    · simp
    · intro hA
      exact hN ((hcond (String.mk p.host)).mp hA)

/-- Witness for C8 at `https://sub.example.com/x`. -/
theorem C8_allowlist_witness :
    ((String.mk "sub.example.com".data = "example.com" ∨
        strEndsWith (String.mk "sub.example.com".data) ".example.com") →
      ∃ c, validateUrl ["example.com"] (some "https://sub.example.com/x") = .valid c) ∧
    (¬ (String.mk "sub.example.com".data = "example.com" ∨
        strEndsWith (String.mk "sub.example.com".data) ".example.com") →
      validateUrl ["example.com"] (some "https://sub.example.com/x") =
        .invalid ("Domain " ++ String.mk "sub.example.com".data ++
          " is not in the allowed domains list")) ∧
    validateUrl ["example.com"] (some "https://example.com/x") =
      .valid "https://example.com/x" ∧
    validateUrl ["example.com"] (some "https://sub.example.com/x") =
      .valid "https://sub.example.com/x" ∧
    validateUrl ["example.com"] (some "https://evil.com/x") =
      .invalid "Domain evil.com is not in the allowed domains list" ∧
    validateUrl ["example.com"] (some "https://notexample.com/x") =
      .invalid "Domain notexample.com is not in the allowed domains list" :=
  C8_allowlist "https://sub.example.com/x"
    ⟨"https".data, none, "sub.example.com".data, none, "/x".data, none, none, false⟩
    (by decide) (by decide) (by decide)

/-! ## Character-level lemmas -/

theorem charToNat_ofNat {n : Nat} (h : n.isValidChar) : (Char.ofNat n).toNat = n := by
  simp only [Char.ofNat, h, dite_true, reduceDIte]
  rfl

theorem charEq_iff_toNat {c d : Char} : c = d ↔ c.toNat = d.toNat := by
  constructor
  · intro h; rw [h]
  · intro h
    have h2 : Char.ofNat c.toNat = Char.ofNat d.toNat := by rw [h]
    rwa [Char.ofNat_toNat, Char.ofNat_toNat] at h2

theorem lowChar_toNat (c : Char) :
    (lowChar c).toNat = if 65 ≤ c.toNat ∧ c.toNat ≤ 90 then c.toNat + 32 else c.toNat := by
  unfold lowChar
  split
  · next h => exact charToNat_ofNat (Or.inl (by omega))
  · rfl

theorem lowChar_idem (c : Char) : lowChar (lowChar c) = lowChar c := by
  rw [charEq_iff_toNat]
  simp only [lowChar_toNat]
  split_ifs <;> omega

theorem map_lowChar_idem (l : Chars) : (l.map lowChar).map lowChar = l.map lowChar := by
  induction l with
  | nil => rfl
  | cons c r ih => simp [lowChar_idem, ih]

theorem forbiddenHostChar_lowChar (c : Char) :
    forbiddenHostChar (lowChar c) = forbiddenHostChar c := by
  simp only [forbiddenHostChar, lowChar_toNat]
  split_ifs with h
  · exact decide_eq_decide.mpr (by omega)
  · rfl

theorem any_forbidden_map_lowChar (l : Chars) :
    (l.map lowChar).any forbiddenHostChar = l.any forbiddenHostChar := by
  induction l with
  | nil => rfl
  | cons c r ih => simp [List.any_cons, forbiddenHostChar_lowChar, ih]

/-! ## Span lemmas -/

theorem takeWhile_append_every {α : Type} {p : α → Bool} {l1 l2 : List α}
    (h : ∀ a ∈ l1, p a = true) :
    (l1 ++ l2).takeWhile p = l1 ++ l2.takeWhile p := by
  induction l1 with
  | nil => rfl
  | cons a r ih =>
    rw [List.cons_append, List.takeWhile_cons, h a (List.mem_cons_self a r),
      ih (fun x hx => h x (List.mem_cons_of_mem _ hx))]
    rfl

theorem dropWhile_append_every {α : Type} {p : α → Bool} {l1 l2 : List α}
    (h : ∀ a ∈ l1, p a = true) :
    (l1 ++ l2).dropWhile p = l2.dropWhile p := by
  induction l1 with
  | nil => rfl
  | cons a r ih =>
    rw [List.cons_append, List.dropWhile_cons, h a (List.mem_cons_self a r)]
    exact ih (fun x hx => h x (List.mem_cons_of_mem _ hx))

theorem takeWhile_append_stop {α : Type} {p : α → Bool} {l1 l2 : List α} {b : α}
    (h : ∀ a ∈ l1, p a = true) (hb : p b = false) :
    (l1 ++ b :: l2).takeWhile p = l1 := by
  rw [takeWhile_append_every h, List.takeWhile_cons, hb]
  simp

theorem dropWhile_append_stop {α : Type} {p : α → Bool} {l1 l2 : List α} {b : α}
    (h : ∀ a ∈ l1, p a = true) (hb : p b = false) :
    (l1 ++ b :: l2).dropWhile p = b :: l2 := by
  rw [dropWhile_append_every h, List.dropWhile_cons, hb]
  simp

theorem takeWhile_every {α : Type} {p : α → Bool} {l : List α}
    (h : ∀ a ∈ l, p a = true) : l.takeWhile p = l := by
  have := @takeWhile_append_every α p l ([] : List α) h
  simpa using this

theorem dropWhile_every {α : Type} {p : α → Bool} {l : List α}
    (h : ∀ a ∈ l, p a = true) : l.dropWhile p = [] := by
  have := @dropWhile_append_every α p l ([] : List α) h
  simpa using this

/-! ## Path-splitting lemmas -/

theorem splitSep_ne_nil (l : Chars) : splitSep l ≠ [] := by
  cases l with
  | nil => simp [splitSep]
  | cons c r =>
    cases h : splitSep r with
    | nil => simp [splitSep, h]
    | cons s ss =>
      simp only [splitSep, h]
      split <;> simp

theorem splitSep_sep_free (l : Chars) (h : ∀ c ∈ l, isSep c = false) :
    splitSep l = [l] := by
  induction l with
  | nil => rfl
  | cons c r ih =>
    have hr : splitSep r = [r] := ih (fun x hx => h x (List.mem_cons_of_mem _ hx))
    simp only [splitSep, hr, h c (List.mem_cons_self c r)]
    simp

theorem splitSep_append_sep (s t : Chars) (hs : ∀ c ∈ s, isSep c = false)
    (c0 : Char) (hc : isSep c0 = true) :
    splitSep (s ++ c0 :: t) = s :: splitSep t := by
  induction s with
  | nil =>
    cases h : splitSep t with
    | nil => exact absurd h (splitSep_ne_nil t)
    | cons x xs => simp [splitSep, h, hc]
  | cons a r ih =>
    have hr := ih (fun x hx => hs x (List.mem_cons_of_mem _ hx))
    simp only [List.cons_append, splitSep, List.append_eq]
    rw [hr]
    simp [hs a (List.mem_cons_self a r)]

theorem splitSep_join (s : Chars) (ss : List Chars)
    (hs : ∀ c ∈ s, isSep c = false)
    (hss : ∀ x ∈ ss, ∀ c ∈ x, isSep c = false) :
    splitSep (s ++ ss.flatMap (fun x => '/' :: x)) = s :: ss := by
  induction ss generalizing s with
  | nil => simpa using splitSep_sep_free s hs
  | cons x xs ih =>
    have h1 : s ++ (x :: xs).flatMap (fun x => '/' :: x) =
        s ++ '/' :: (x ++ xs.flatMap (fun x => '/' :: x)) := by
      simp
    rw [h1, splitSep_append_sep s _ hs '/' (by decide)]
    have := ih x (hss x (List.mem_cons_self x xs))
      (fun y hy => hss y (List.mem_cons_of_mem _ hy))
    rw [this]

theorem segsOf_pathSer (segs : List Chars)
    (h : ∀ s ∈ segs, ∀ c ∈ s, isSep c = false) :
    segsOf (pathSer segs) = if segs = [] then [[]] else segs := by
  cases segs with
  | nil => rfl
  | cons s ss =>
    have h1 : pathSer (s :: ss) = '/' :: (s ++ ss.flatMap (fun x => '/' :: x)) := by
      simp [pathSer]
    rw [h1]
    simp only [segsOf]
    rw [if_pos (by decide)]
    rw [splitSep_join s ss (h s (List.mem_cons_self s ss))
      (fun y hy => h y (List.mem_cons_of_mem _ hy))]
    simp

/-! ## normSegs and segment membership lemmas -/

theorem normSegs_nondot : ∀ (segs acc : List Chars),
    (∀ s ∈ segs, ddotSeg s = false ∧ dotSeg s = false) →
    normSegs acc segs = acc ++ segs := by
  intro segs
  induction segs with
  | nil => intro acc _; simp [normSegs]
  | cons s rest ih =>
    intro acc h
    have hs := h s (List.mem_cons_self s rest)
    cases rest with
    | nil => simp [normSegs, hs.1, hs.2]
    | cons s2 rest2 =>
      simp only [normSegs, hs.1, hs.2, Bool.false_eq_true, if_false]
      rw [ih (acc ++ [s]) (fun x hx => h x (List.mem_cons_of_mem _ hx))]
      simp

theorem normSegs_mem : ∀ (segs acc : List Chars) (s : Chars),
    s ∈ normSegs acc segs →
    s ∈ acc ∨ s = [] ∨ (s ∈ segs ∧ ddotSeg s = false ∧ dotSeg s = false) := by
  intro segs
  induction segs with
  | nil => intro acc s h; exact Or.inl h
  | cons x rest ih =>
    intro acc s h
    cases rest with
    | nil =>
      by_cases h1 : ddotSeg x = true
      · simp only [normSegs, h1, if_true] at h
        rcases List.mem_append.mp h with h2 | h2
        · exact Or.inl (List.dropLast_subset _ h2)
        · exact Or.inr (Or.inl (by simpa using h2))
      · by_cases h2 : dotSeg x = true
        · simp only [normSegs, h1, h2, if_true, if_false] at h
          rcases List.mem_append.mp h with h3 | h3
          · exact Or.inl h3
          · exact Or.inr (Or.inl (by simpa using h3))
        · simp only [normSegs, h1, h2, if_false] at h
          rcases List.mem_append.mp h with h3 | h3
          · exact Or.inl h3
          · refine Or.inr (Or.inr ⟨by simpa using h3, ?_, ?_⟩) <;>
              simp_all [Bool.not_eq_true]
    | cons y rest2 =>
      by_cases h1 : ddotSeg x = true
      · simp only [normSegs, h1, if_true] at h
        rcases ih acc.dropLast s h with h2 | h2 | h2
        · exact Or.inl (List.dropLast_subset _ h2)
        · exact Or.inr (Or.inl h2)
        · exact Or.inr (Or.inr ⟨List.mem_cons_of_mem _ h2.1, h2.2⟩)
      · by_cases h2 : dotSeg x = true
        · simp only [normSegs, h1, h2, if_true, if_false] at h
          rcases ih acc s h with h3 | h3 | h3
          · exact Or.inl h3
          · exact Or.inr (Or.inl h3)
          · exact Or.inr (Or.inr ⟨List.mem_cons_of_mem _ h3.1, h3.2⟩)
        · simp only [normSegs, h1, h2, if_false] at h
          rcases ih (acc ++ [x]) s h with h3 | h3 | h3
          · rcases List.mem_append.mp h3 with h4 | h4
            · exact Or.inl h4
            · refine Or.inr (Or.inr ⟨?_, ?_, ?_⟩)
              · simp at h4
                simp [h4]
              · simp_all [Bool.not_eq_true]
              · simp_all [Bool.not_eq_true]
          · exact Or.inr (Or.inl h3)
          · exact Or.inr (Or.inr ⟨List.mem_cons_of_mem _ h3.1, h3.2⟩)

theorem splitSep_chars : ∀ (l : Chars) (s : Chars), s ∈ splitSep l →
    ∀ c ∈ s, c ∈ l ∧ isSep c = false := by
  intro l
  induction l with
  | nil =>
    intro s hs c hc
    simp [splitSep] at hs
    subst hs
    simp at hc
  | cons a r ih =>
    intro s hs c hc
    rcases hsp : splitSep r with _ | ⟨x, xs⟩
    · exact absurd hsp (splitSep_ne_nil r)
    · rw [splitSep, hsp] at hs
      by_cases ha : isSep a = true
      · simp only [ha, reduceIte] at hs
        rcases List.mem_cons.mp hs with h1 | h1
        · subst h1; simp at hc
        · have := ih s (hsp ▸ h1) c hc
          exact ⟨List.mem_cons_of_mem _ this.1, this.2⟩
      · rw [Bool.not_eq_true] at ha
        simp only [ha, Bool.false_eq_true, reduceIte] at hs
        rcases List.mem_cons.mp hs with h1 | h1
        · subst h1
          rcases List.mem_cons.mp hc with h2 | h2
          · subst h2; exact ⟨List.mem_cons_self c r, ha⟩
          · have := ih x (hsp ▸ List.mem_cons_self x xs) c h2
            exact ⟨List.mem_cons_of_mem _ this.1, this.2⟩
        · have := ih s (hsp ▸ List.mem_cons_of_mem _ h1) c hc
          exact ⟨List.mem_cons_of_mem _ this.1, this.2⟩

theorem segsOf_chars (l : Chars) (s : Chars) (hs : s ∈ segsOf l) :
    ∀ c ∈ s, c ∈ l ∧ isSep c = false := by
  intro c hc
  cases l with
  | nil => simp [segsOf] at hs
  | cons a r =>
    simp only [segsOf] at hs
    by_cases ha : isSep a = true
    · simp only [ha, reduceIte] at hs
      have := splitSep_chars r s hs c hc
      exact ⟨List.mem_cons_of_mem _ this.1, this.2⟩
    · rw [Bool.not_eq_true] at ha
      simp only [ha, Bool.false_eq_true, reduceIte] at hs
      exact splitSep_chars (a :: r) s hs c hc

/-! ## Percent-encoding lemmas -/

theorem charToNat_lt (c : Char) : c.toNat < 0x110000 := by
  rcases c.valid with h | h
  · exact lt_trans h (by norm_num)
  · exact h.2

theorem hexUp_toNat (n : Nat) (h : n < 16) :
    (hexUp n).toNat = if n < 10 then 48 + n else 55 + n := by
  unfold hexUp
  split
  · exact charToNat_ofNat (Or.inl (by omega))
  · exact charToNat_ofNat (Or.inl (by omega))

theorem pctByte_chars (b : Nat) (hb : b < 256) :
    ∀ c ∈ pctByte b, inPathEncSet c = false ∧ isSep c = false ∧ PctCharP c := by
  intro c hc
  have h16a : b / 16 < 16 := by omega
  have h16b : b % 16 < 16 := by omega
  have ha := hexUp_toNat (b / 16) h16a
  have hb2 := hexUp_toNat (b % 16) h16b
  simp only [pctByte, List.mem_cons, List.not_mem_nil, or_false] at hc
  rcases hc with h | h | h <;> subst h
  · exact ⟨by decide, by decide, Or.inl (by decide)⟩
  · refine ⟨?_, ?_, ?_⟩
    · simp only [inPathEncSet, ha]
      rw [decide_eq_false]
      split_ifs <;> omega
    · simp only [isSep, ha]
      rw [decide_eq_false]
      split_ifs <;> omega
    · unfold PctCharP
      rw [ha]
      split_ifs <;> omega
  · refine ⟨?_, ?_, ?_⟩
    · simp only [inPathEncSet, hb2]
      rw [decide_eq_false]
      split_ifs <;> omega
    · simp only [isSep, hb2]
      rw [decide_eq_false]
      split_ifs <;> omega
    · unfold PctCharP
      rw [hb2]
      split_ifs <;> omega

theorem utf8Bytes_lt (c : Char) : ∀ b ∈ utf8Bytes c, b < 256 := by
  intro b hb
  have hc := charToNat_lt c
  unfold utf8Bytes at hb
  dsimp only at hb
  split_ifs at hb <;> simp only [List.mem_cons, List.not_mem_nil, or_false] at hb <;>
    rcases hb with h | h | h | h <;> try subst h
  all_goals omega

theorem encChar_chars (d : Char) :
    ∀ c ∈ encChar d, inPathEncSet c = false ∧
      ((c = d ∧ isSep c = isSep d) ∨ (isSep c = false ∧ PctCharP c)) := by
  intro c hc
  unfold encChar at hc
  split_ifs at hc with h
  · rcases List.mem_flatMap.mp hc with ⟨b, hb1, hb2⟩
    have := pctByte_chars b (utf8Bytes_lt d b hb1) c hb2
    exact ⟨this.1, Or.inr ⟨this.2.1, this.2.2⟩⟩
  · simp only [List.mem_cons, List.not_mem_nil, or_false] at hc
    subst hc
    exact ⟨by simpa using h, Or.inl ⟨rfl, rfl⟩⟩

theorem flatMap_encChar_chars (l : Chars) :
    ∀ c ∈ l.flatMap encChar, inPathEncSet c = false ∧
      (c ∈ l ∨ (isSep c = false ∧ PctCharP c)) := by
  intro c hc
  rcases List.mem_flatMap.mp hc with ⟨d, hd1, hd2⟩
  have := encChar_chars d c hd2
  refine ⟨this.1, ?_⟩
  rcases this.2 with ⟨h1, _⟩ | h1
  · exact Or.inl (h1 ▸ hd1)
  · exact Or.inr h1

theorem encChar_fixed (c : Char) (h : inPathEncSet c = false) : encChar c = [c] := by
  unfold encChar
  rw [h]
  simp

theorem flatMap_encChar_fixed (l : Chars) (h : ∀ c ∈ l, inPathEncSet c = false) :
    l.flatMap encChar = l := by
  induction l with
  | nil => rfl
  | cons c r ih =>
    rw [List.flatMap_cons, encChar_fixed c (h c (List.mem_cons_self c r)),
      ih (fun x hx => h x (List.mem_cons_of_mem _ hx))]
    rfl

/-! ## canonPath lemmas -/

theorem pathSer_shape (segs : List Chars) : ∃ t, pathSer segs = '/' :: t := by
  cases segs with
  | nil => exact ⟨[], rfl⟩
  | cons s ss => exact ⟨s ++ ss.flatMap (fun x => '/' :: x), by simp [pathSer]⟩

theorem canonPath_shape (l : Chars) : ∃ t, canonPath l = '/' :: t :=
  pathSer_shape _

theorem pathSer_chars (segs : List Chars) :
    ∀ c ∈ pathSer segs, c.toNat = 0x2F ∨ ∃ s ∈ segs, c ∈ s := by
  intro c hc
  cases segs with
  | nil =>
    simp only [pathSer, List.mem_cons, List.not_mem_nil, or_false] at hc
    subst hc
    exact Or.inl (by decide)
  | cons s ss =>
    simp only [pathSer] at hc
    rcases List.mem_flatMap.mp hc with ⟨x, hx1, hx2⟩
    rcases List.mem_cons.mp hx2 with h | h
    · subst h; exact Or.inl (by decide)
    · exact Or.inr ⟨x, hx1, h⟩

theorem canonPath_chars (l : Chars) :
    ∀ c ∈ canonPath l, inPathEncSet c = false ∧
      (c.toNat = 0x2F ∨ (isSep c = false ∧ (c ∈ l ∨ PctCharP c))) := by
  intro c hc
  unfold canonPath at hc
  rcases pathSer_chars _ c hc with h | ⟨s, hs1, hs2⟩
  · refine ⟨?_, Or.inl h⟩
    simp [inPathEncSet]
    omega
  · rcases normSegs_mem _ [] s hs1 with h1 | h1 | h1
    · simp at h1
    · subst h1; simp at hs2
    · have h2 := segsOf_chars _ s h1.1 c hs2
      have h3 := flatMap_encChar_chars l c h2.1
      refine ⟨h3.1, Or.inr ⟨h2.2, ?_⟩⟩
      rcases h3.2 with h4 | h4
      · exact Or.inl h4
      · exact Or.inr h4.2

theorem canonPath_not_inset (l : Chars) : ∀ c ∈ canonPath l, inPathEncSet c = false :=
  fun c hc => (canonPath_chars l c hc).1

theorem canonPath_not_pathEnd (l : Chars) : ∀ c ∈ canonPath l, isPathEnd c = false := by
  intro c hc
  have h := canonPath_chars l c hc
  have h1 := h.1
  simp only [inPathEncSet, decide_eq_false_iff_not] at h1
  simp only [isPathEnd, decide_eq_false_iff_not]
  omega

theorem canonPath_idem (l : Chars) : canonPath (canonPath l) = canonPath l := by
  have henc : (canonPath l).flatMap encChar = canonPath l :=
    flatMap_encChar_fixed _ (canonPath_not_inset l)
  have hsegsfree : ∀ s ∈ normSegs [] (segsOf (l.flatMap encChar)), ∀ c ∈ s, isSep c = false := by
    intro s hs c hc
    rcases normSegs_mem _ [] s hs with h1 | h1 | h1
    · simp at h1
    · subst h1; simp at hc
    · exact (segsOf_chars _ s h1.1 c hc).2
  have hsegnondot : ∀ s ∈ normSegs [] (segsOf (l.flatMap encChar)),
      ddotSeg s = false ∧ dotSeg s = false := by
    intro s hs
    rcases normSegs_mem _ [] s hs with h1 | h1 | h1
    · simp at h1
    · subst h1; exact ⟨by decide, by decide⟩
    · exact h1.2
  rw [canonPath]
  rw [henc]
  rw [canonPath]
  rw [segsOf_pathSer _ hsegsfree]
  by_cases hnil : normSegs [] (segsOf (l.flatMap encChar)) = []
  · rw [if_pos hnil, hnil]
    rfl
  · rw [if_neg hnil]
    rw [normSegs_nondot _ [] hsegnondot]
    rfl

/-! ## Port digit lemmas -/

theorem natDigits_toNat (n : Nat) : ∀ c ∈ natDigits n, 48 ≤ c.toNat ∧ c.toNat ≤ 57 := by
  intro c hc
  unfold natDigits at hc
  split_ifs at hc with h
  · simp only [List.mem_cons, List.not_mem_nil, or_false] at hc
    subst hc
    exact ⟨by decide, by decide⟩
  · rcases List.mem_map.mp hc with ⟨d, hd1, hd2⟩
    have hd10 : d < 10 := Nat.digits_lt_base (by norm_num) (List.mem_reverse.mp hd1)
    have := charToNat_ofNat (n := 48 + d) (Or.inl (by omega))
    subst hd2
    omega

theorem natDigits_ne_nil (n : Nat) : natDigits n ≠ [] := by
  unfold natDigits
  split_ifs with h
  · simp
  · intro hcontra
    have := List.map_eq_nil_iff.mp hcontra
    have h2 := List.reverse_eq_nil_iff.mp this
    exact h (Nat.digits_eq_nil_iff_eq_zero.mp h2)

theorem digitsToNat_natDigits (n : Nat) : digitsToNat (natDigits n) = n := by
  unfold natDigits
  split_ifs with h
  · subst h; decide
  · unfold digitsToNat
    have hmap : ((Nat.digits 10 n).reverse.map (fun d => Char.ofNat (48 + d))).map
        (fun c => c.toNat - 48) = (Nat.digits 10 n).reverse := by
      rw [List.map_map]
      rw [show (Nat.digits 10 n).reverse = (Nat.digits 10 n).reverse.map id from
        (List.map_id _).symm]
      rw [List.map_map]
      apply List.map_congr_left
      intro d hd
      have hd10 : d < 10 := Nat.digits_lt_base (by norm_num) (List.mem_reverse.mp
        (by simpa using hd))
      simp only [Function.comp_apply, id_eq]
      rw [charToNat_ofNat (Or.inl (by omega))]
      omega
    rw [hmap, List.reverse_reverse, Nat.ofDigits_digits]

theorem parsePort_natDigits (n : Nat) (h : n < 65536) :
    parsePort (natDigits n) = some (some n) := by
  unfold parsePort
  rw [if_neg (natDigits_ne_nil n)]
  rw [if_pos]
  · rw [digitsToNat_natDigits, if_pos h]
  · apply List.all_eq_true.mpr
    intro c hc
    have := natDigits_toNat n c hc
    simp only [isDigitChar]
    exact decide_eq_true (by omega)

/-! ## Scheme and authority reparse lemmas -/

theorem parseScheme_reser (sch r : Chars) (c0 : Char) (rest0 : Chars)
    (hsh : sch = c0 :: rest0)
    (h1 : ∀ c ∈ sch, isSchemeChar c = true)
    (h3 : isAlphaChar c0 = true)
    (h4 : sch.map lowChar = sch) :
    parseScheme (sch ++ ':' :: r) = some (sch, r) := by
  unfold parseScheme
  rw [takeWhile_append_stop h1 (by decide), dropWhile_append_stop h1 (by decide)]
  subst hsh
  simp only [h3, if_true, h4]

theorem splitUserinfo_no_at (auth : Chars) (h : ∀ c ∈ auth, c.toNat ≠ 0x40) :
    splitUserinfo auth = (none, auth) := by
  unfold splitUserinfo
  have hdrop : auth.reverse.dropWhile (· ≠ '@') = [] := by
    apply dropWhile_every
    intro c hc
    have := h c (List.mem_reverse.mp hc)
    simp only [ne_eq, decide_eq_true_eq]
    intro hcontra
    subst hcontra
    exact this (by decide)
  rw [hdrop]

theorem splitPort_none (host : Chars) (hh : ∀ c ∈ host, c.toNat ≠ 0x3A) :
    splitPort host = (host, none) := by
  unfold splitPort
  have hdrop : host.dropWhile (· ≠ ':') = [] := by
    apply dropWhile_every
    intro c hc
    have := hh c hc
    simp only [ne_eq, decide_eq_true_eq]
    intro hcontra
    subst hcontra
    exact this (by decide)
  rw [hdrop]

theorem splitPort_mid (host ds : Chars) (hh : ∀ c ∈ host, c.toNat ≠ 0x3A) :
    splitPort (host ++ ':' :: ds) = (host, some ds) := by
  unfold splitPort
  have hpred : ∀ c ∈ host, (c ≠ ':' : Bool) = true := by
    intro c hc
    have := hh c hc
    simp only [ne_eq, decide_eq_true_eq]
    intro hcontra
    subst hcontra
    exact this (by decide)
  rw [dropWhile_append_stop hpred (by decide), takeWhile_append_stop hpred (by decide)]

theorem host_chars_of_no_forbidden (host : Chars) (h : host.any forbiddenHostChar = false) :
    ∀ c ∈ host, 0x21 ≤ c.toNat ∧ c.toNat < 0x7F ∧
      c.toNat ≠ 0x23 ∧ c.toNat ≠ 0x2F ∧ c.toNat ≠ 0x3A ∧ c.toNat ≠ 0x3F ∧
      c.toNat ≠ 0x40 ∧ c.toNat ≠ 0x5C := by
  intro c hc
  have h2 : forbiddenHostChar c = false := by
    by_contra hcontra
    rw [Bool.not_eq_false] at hcontra
    have := List.any_eq_true.mpr ⟨c, hc, hcontra⟩
    rw [h] at this
    exact Bool.noConfusion this
  simp only [forbiddenHostChar, decide_eq_false_iff_not] at h2
  omega

theorem parseAuthority_reser (scheme host : Chars) (port : Option Nat)
    (hh1 : host ≠ []) (hh2 : host.any forbiddenHostChar = false)
    (hh3 : host.map lowChar = host)
    (hp : ∀ n, port = some n → n < 65536 ∧ some n ≠ defaultPort scheme) :
    parseAuthority scheme (host ++ portSer port) =
      some ⟨scheme, none, host, port, [], none, none, false⟩ := by
  have hostf := host_chars_of_no_forbidden host hh2
  have hno_at : ∀ c ∈ host ++ portSer port, c.toNat ≠ 0x40 := by
    intro c hc
    rcases List.mem_append.mp hc with h | h
    · exact (hostf c h).2.2.2.2.2.2.1
    · cases port with
      | none => simp [portSer] at h
      | some n =>
        simp only [portSer, List.mem_cons] at h
        rcases h with h | h
        · subst h; decide
        · have := natDigits_toNat n c h; omega
  have hno_colon : ∀ c ∈ host, c.toNat ≠ 0x3A := fun c hc => (hostf c hc).2.2.2.2.1
  unfold parseAuthority
  rw [splitUserinfo_no_at _ hno_at]
  cases port with
  | none =>
    simp only [portSer, List.append_nil]
    rw [splitPort_none host hno_colon]
    simp only
    rw [if_neg (by simpa using hh1), if_neg (by simp [hh2])]
    simp [hh3]
  | some n =>
    simp only [portSer]
    rw [splitPort_mid host (natDigits n) hno_colon]
    simp only
    rw [if_neg (by simpa using hh1), if_neg (by simp [hh2])]
    rw [parsePort_natDigits n (hp n rfl).1]
    simp only
    rw [if_neg (hp n rfl).2]
    simp [hh3]

/-! ## Full URL reparse lemma -/

theorem specialScheme_facts (sch : Chars) (h : sch ∈ specialSchemes) :
    (∃ c0 rest0, sch = c0 :: rest0 ∧ isAlphaChar c0 = true) ∧
    (∀ c ∈ sch, isSchemeChar c = true) ∧ sch.map lowChar = sch := by
  simp only [specialSchemes, List.mem_cons, List.not_mem_nil, or_false] at h
  rcases h with h | h | h | h | h <;> subst h <;>
    exact ⟨⟨_, _, rfl, by decide⟩, by decide, by decide⟩

theorem parseUrl_reser (scheme host : Chars) (port : Option Nat) (path : Chars)
    (hsch : scheme ∈ specialSchemes)
    (hh1 : host ≠ []) (hh2 : host.any forbiddenHostChar = false)
    (hh3 : host.map lowChar = host)
    (hp : ∀ n, port = some n → n < 65536 ∧ some n ≠ defaultPort scheme)
    (hpath : canonPath path = path) :
    parseUrl (scheme ++ [':', '/', '/'] ++ host ++ portSer port ++ path) =
      some ⟨scheme, none, host, port, path, none, none, false⟩ := by
  obtain ⟨⟨c0, rest0, hc0, halpha⟩, hschemechars, hlow⟩ := specialScheme_facts scheme hsch
  obtain ⟨pt, hpt⟩ : ∃ t, path = '/' :: t := by
    obtain ⟨t, ht⟩ := canonPath_shape path
    exact ⟨t, by rw [← hpath, ht]⟩
  have hostf := host_chars_of_no_forbidden host hh2
  have harr : scheme ++ [':', '/', '/'] ++ host ++ portSer port ++ path =
      scheme ++ ':' :: ('/' :: '/' :: (host ++ portSer port ++ path)) := by
    simp
  rw [harr]
  unfold parseUrl
  rw [parseScheme_reser scheme _ c0 rest0 hc0 hschemechars halpha hlow]
  simp only
  unfold parseAfterScheme
  rw [if_pos hsch]
  simp only
  rw [if_pos (And.intro trivial trivial)]
  have hnosep_head : (host ++ portSer port ++ path).dropWhile isSep =
      host ++ portSer port ++ path := by
    obtain ⟨hc, hrest, hhost⟩ : ∃ hc hrest, host = hc :: hrest := by
      cases host with
      | nil => exact absurd rfl hh1
      | cons a b => exact ⟨a, b, rfl⟩
    subst hhost
    rw [List.cons_append, List.cons_append, List.dropWhile_cons]
    have := hostf hc (List.mem_cons_self hc hrest)
    rw [show isSep hc = false from by simp only [isSep]; exact decide_eq_false (by omega)]
    simp
  rw [hnosep_head]
  have hauth_every : ∀ c ∈ host ++ portSer port, (¬ isAuthEnd c : Bool) = true := by
    intro c hc
    rcases List.mem_append.mp hc with h | h
    · have := hostf c h
      refine decide_eq_true ?_
      simp only [isAuthEnd, decide_eq_true_eq]
      omega
    · cases port with
      | none => simp [portSer] at h
      | some n =>
        simp only [portSer, List.mem_cons] at h
        rcases h with h | h
        · subst h; decide
        · have := natDigits_toNat n c h
          refine decide_eq_true ?_
          simp only [isAuthEnd, decide_eq_true_eq]
          omega
  have hpathEnd_head : (¬ isAuthEnd '/' : Bool) = false := by decide
  have hsplit : host ++ portSer port ++ path = (host ++ portSer port) ++ '/' :: pt := by
    rw [hpt]
  rw [hsplit]
  rw [takeWhile_append_stop hauth_every hpathEnd_head,
    dropWhile_append_stop hauth_every hpathEnd_head]
  rw [parseAuthority_reser scheme host port hh1 hh2 hh3 hp]
  simp only
  have hpall : ∀ c ∈ path, isPathEnd c = false := by
    intro c hc
    exact canonPath_not_pathEnd path c (by rw [hpath]; exact hc)
  have hpath_every : ∀ c ∈ '/' :: pt, (¬ isPathEnd c : Bool) = true := by
    intro c hc
    have := hpall c (by rw [hpt]; exact hc)
    simp [this]
  rw [takeWhile_every hpath_every, dropWhile_every hpath_every]
  simp only [parseQF]
  rw [← hpt, hpath]

/-! ## Inversion lemmas -/

theorem parsePort_inv (ds : Chars) (p : Option Nat) (h : parsePort ds = some p) :
    ∀ n, p = some n → n < 65536 := by
  intro n hn
  subst hn
  unfold parsePort at h
  by_cases h1 : ds = []
  · rw [if_pos h1] at h
    simp at h
  · rw [if_neg h1] at h
    by_cases h2 : ds.all isDigitChar = true
    · rw [if_pos h2] at h
      dsimp only at h
      by_cases h3 : digitsToNat ds < 65536
      · rw [if_pos h3] at h
        simp only [Option.some.injEq] at h
        rw [← h]
        exact h3
      · rw [if_neg h3] at h
        simp at h
    · rw [if_neg h2] at h
      simp at h

theorem parseAuthority_inv (scheme auth : Chars) (u : UrlObj)
    (h : parseAuthority scheme auth = some u) :
    u.scheme = scheme ∧ u.userinfo = (splitUserinfo auth).1 ∧
    u.host ≠ [] ∧ u.host.any forbiddenHostChar = false ∧
    u.host.map lowChar = u.host ∧
    (∀ n, u.port = some n → n < 65536 ∧ some n ≠ defaultPort scheme) ∧
    u.path = [] ∧ u.query = none ∧ u.fragment = none ∧ u.opaquePath = false := by
  unfold parseAuthority at h
  dsimp only at h
  split_ifs at h with h1 h2
  rw [Bool.not_eq_true] at h2
  rcases hsp : splitPort (splitUserinfo auth).2 with ⟨hostRaw, portRaw⟩
  rw [hsp] at h h1 h2
  dsimp only at h h1 h2
  cases portRaw with
  | none =>
    simp only [Option.some.injEq] at h
    subst h
    refine ⟨rfl, rfl, ?_, ?_, map_lowChar_idem _, ?_, rfl, rfl, rfl, rfl⟩
    · simpa using h1
    · rw [any_forbidden_map_lowChar]; exact h2
    · intro n hn; exact absurd hn (by simp)
  | some ds =>
    dsimp only at h
    cases hpp : parsePort ds with
    | none => rw [hpp] at h; exact absurd h (by simp)
    | some p =>
      rw [hpp] at h
      simp only [Option.some.injEq] at h
      subst h
      refine ⟨rfl, rfl, ?_, ?_, map_lowChar_idem _, ?_, rfl, rfl, rfl, rfl⟩
      · simpa using h1
      · rw [any_forbidden_map_lowChar]; exact h2
      · intro n hn
        dsimp only at hn
        split_ifs at hn with hdef
        subst hn
        exact ⟨parsePort_inv ds (some n) hpp n rfl, hdef⟩

theorem parseUrl_inv (l : Chars) (u : UrlObj) (h : parseUrl l = some u)
    (hsp0 : u.scheme ∈ specialSchemes) :
    u.opaquePath = false ∧
    u.host ≠ [] ∧ u.host.any forbiddenHostChar = false ∧
    u.host.map lowChar = u.host ∧
    (∀ n, u.port = some n → n < 65536 ∧ some n ≠ defaultPort u.scheme) ∧
    canonPath u.path = u.path := by
  unfold parseUrl at h
  cases hps : parseScheme l with
  | none => rw [hps] at h; exact absurd h (by simp)
  | some sr =>
    rw [hps] at h
    obtain ⟨scheme, r1⟩ := sr
    dsimp only at h
    unfold parseAfterScheme at h
    by_cases hsp : scheme ∈ specialSchemes
    · rw [if_pos hsp] at h
      split at h
      · next c1 c2 r2 =>
        by_cases hslash : c1 = '/' ∧ c2 = '/'
        case neg =>
          rw [if_neg hslash] at h
          exact absurd h (by simp)
        rw [if_pos hslash] at h
        dsimp only at h
        cases hpa : parseAuthority scheme
            ((r2.dropWhile isSep).takeWhile (fun c => ¬ isAuthEnd c)) with
        | none => rw [hpa] at h; exact absurd h (by simp)
        | some u0 =>
          rw [hpa] at h
          dsimp only at h
          simp only [Option.some.injEq] at h
          subst h
          obtain ⟨hsch, _, hh1, hh2, hh3, hport, _, _, _, _⟩ :=
            parseAuthority_inv scheme _ u0 hpa
          obtain ⟨_, _, _, _, _, _, _, _, _, hopq⟩ := parseAuthority_inv scheme _ u0 hpa
          refine ⟨by simpa using hopq, by simpa using hh1, by simpa using hh2,
            by simpa using hh3, ?_, ?_⟩
          · intro n hn
            simp only at hn
            have := hport n hn
            simpa [hsch] using this
          · simp only
            exact canonPath_idem _
      · next hne => exact absurd h (by simp)
    · rw [if_neg hsp] at h
      simp only [Option.some.injEq] at h
      subst h
      exact absurd (by simpa using hsp0) hsp

/-! ## ampTruncate facts -/

theorem amp_not_in_canonPath (l0 : Chars) (hl0 : ∀ c ∈ l0, c ≠ '&') :
    ('&' ∈ canonPath l0) → False := by
  intro hmem
  have h := canonPath_chars l0 '&' hmem
  rcases h.2 with h1 | ⟨_, h2 | h2⟩
  · exact absurd h1 (by decide)
  · exact hl0 '&' h2 rfl
  · unfold PctCharP at h2
    rcases h2 with h3 | h3 | h3 <;> revert h3 <;> decide

theorem ampTruncate_amp_free (obj : UrlObj) (hop : obj.opaquePath = false)
    (hfix : canonPath obj.path = obj.path) :
    canonPath (ampTruncate obj).path = (ampTruncate obj).path ∧
    ((ampTruncate obj).path.contains '&') = false := by
  unfold ampTruncate
  by_cases hc : obj.path.contains '&' = true
  · rw [if_pos hc, if_neg (by rw [hop]; exact Bool.false_ne_true)]
    refine ⟨canonPath_idem _, ?_⟩
    rw [Bool.eq_false_iff]
    intro hcontra
    have hmem : '&' ∈ canonPath (obj.path.takeWhile (· ≠ '&')) :=
      List.elem_iff.mp hcontra
    refine amp_not_in_canonPath _ ?_ hmem
    intro c hcm
    have := List.mem_takeWhile_imp hcm
    simpa using this
  · rw [if_neg hc]
    exact ⟨hfix, by simpa using hc⟩

@[simp] theorem ampTruncate_query (u : UrlObj) : (ampTruncate u).query = u.query := by
  unfold ampTruncate
  split <;> [skip; rfl]
  split <;> rfl

@[simp] theorem ampTruncate_fragment (u : UrlObj) : (ampTruncate u).fragment = u.fragment := by
  unfold ampTruncate
  split <;> [skip; rfl]
  split <;> rfl

@[simp] theorem ampTruncate_userinfo (u : UrlObj) : (ampTruncate u).userinfo = u.userinfo := by
  unfold ampTruncate
  split <;> [skip; rfl]
  split <;> rfl

/-! ## validateUrl inversion -/

theorem validateUrl_valid_inv (ad : List String) (us c : String)
    (h : validateUrl ad (some us) = .valid c) :
    ∃ obj : UrlObj,
      c = String.mk (originChars obj ++ obj.path) ∧
      (obj.scheme = "http".data ∨ obj.scheme = "https".data) ∧
      obj.host ≠ [] ∧ obj.host.any forbiddenHostChar = false ∧
      obj.host.map lowChar = obj.host ∧
      (∀ n, obj.port = some n → n < 65536 ∧ some n ≠ defaultPort obj.scheme) ∧
      canonPath obj.path = obj.path ∧ (obj.path.contains '&') = false ∧
      (ad = [] ∨ hostAllowed ad (String.mk obj.host) = true) := by
  unfold validateUrl at h
  dsimp only at h
  by_cases h1 : us = ""
  · rw [if_pos h1] at h
    exact absurd h (by simp)
  · rw [if_neg h1] at h
    cases hpu : parseUrl (decodeOnce us.data) with
    | none => rw [hpu] at h; exact absurd h (by simp)
    | some obj0 =>
      rw [hpu] at h
      dsimp only at h
      by_cases hs : ¬ ((ampTruncate { obj0 with query := none, fragment := none }).scheme ++
            [':'] = "http:".data ∨
          (ampTruncate { obj0 with query := none, fragment := none }).scheme ++ [':'] =
            "https:".data)
      · rw [if_pos hs] at h
        exact absurd h (by simp)
      · rw [if_neg hs] at h
        rw [not_not] at hs
        have hscheme : obj0.scheme = "http".data ∨ obj0.scheme = "https".data := by
          rcases hs with h2 | h2
          · left
            rw [ampTruncate_scheme] at h2
            have h3 : obj0.scheme ++ [':'] = "http".data ++ [':'] := h2
            exact (append_colon_iff _ _).mp h3
          · right
            rw [ampTruncate_scheme] at h2
            have h3 : obj0.scheme ++ [':'] = "https".data ++ [':'] := h2
            exact (append_colon_iff _ _).mp h3
        have hsp0 : obj0.scheme ∈ specialSchemes := by
          rcases hscheme with h2 | h2 <;> rw [h2] <;> decide
        obtain ⟨hop, hh1, hh2, hh3, hport, hfix⟩ := parseUrl_inv _ obj0 hpu hsp0
        have hampfacts := ampTruncate_amp_free { obj0 with query := none, fragment := none }
          (by simpa using hop) (by simpa using hfix)
        by_cases hw : ad ≠ [] ∧
            ¬ hostAllowed ad (String.mk (ampTruncate
              { obj0 with query := none, fragment := none }).host) = true
        · rw [if_pos hw] at h
          exact absurd h (by simp)
        · rw [if_neg hw] at h
          simp only [ValidOut.valid.injEq] at h
          refine ⟨ampTruncate { obj0 with query := none, fragment := none },
            h.symm, ?_, ?_, ?_, ?_, ?_, hampfacts.1, hampfacts.2, ?_⟩
          · simpa using hscheme
          · simpa using hh1
          · simpa using hh2
          · simpa using hh3
          · intro n hn
            have := hport n (by simpa using hn)
            simpa using this
          · rcases Decidable.not_and_iff_or_not.mp hw with h2 | h2
            · exact Or.inl (by simpa using h2)
            · exact Or.inr (by simpa using h2)

/-! ## Canonical-output reparse -/

theorem canonical_reparse (obj : UrlObj)
    (hscheme : obj.scheme = "http".data ∨ obj.scheme = "https".data)
    (hh1 : obj.host ≠ []) (hh2 : obj.host.any forbiddenHostChar = false)
    (hh3 : obj.host.map lowChar = obj.host)
    (hport : ∀ n, obj.port = some n → n < 65536 ∧ some n ≠ defaultPort obj.scheme)
    (hfix : canonPath obj.path = obj.path) :
    parseUrl (originChars obj ++ obj.path) =
      some ⟨obj.scheme, none, obj.host, obj.port, obj.path, none, none, false⟩ := by
  have hsp : obj.scheme ∈ specialSchemes := by
    rcases hscheme with h | h <;> rw [h] <;> decide
  have hmain := parseUrl_reser obj.scheme obj.host obj.port obj.path hsp hh1 hh2 hh3 hport hfix
  have harr : originChars obj ++ obj.path =
      obj.scheme ++ [':', '/', '/'] ++ obj.host ++ portSer obj.port ++ obj.path := by
    simp [originChars, List.append_assoc]
  rw [harr]
  exact hmain

theorem serializeUrl_strip (u : UrlObj) (hui : u.userinfo = none) (hq : u.query = none)
    (hf : u.fragment = none) (hop : u.opaquePath = false) :
    serializeUrl u = originChars u ++ u.path := by
  unfold serializeUrl originChars
  rw [hui, hq, hf, hop]
  simp

/-! ## Claim C9: cache key is the namespaced canonical URL verbatim -/

/-- C9: on any canonical URL produced by the Resolver, the cache's own
re-normalisation (`CacheManager.normalizeUrl`: re-parse, drop the
fragment, sort the query parameters, re-serialise) is the identity, so
the cache key is the fixed namespace string followed by the canonical URL
verbatim. -/
theorem C9_cache_key_verbatim (ad : List String) (us c : String)
    (h : validateUrl ad (some us) = .valid c) :
    cacheNormalizeUrl c = c ∧ cacheKey c = "prerender:" ++ c := by
  obtain ⟨obj, hc, hscheme, hh1, hh2, hh3, hport, hfix, hamp, hallow⟩ :=
    validateUrl_valid_inv ad us c h
  have hre := canonical_reparse obj hscheme hh1 hh2 hh3 hport hfix
  have hcn : cacheNormalizeUrl c = c := by
    unfold cacheNormalizeUrl
    rw [hc]
    dsimp only
    rw [hre]
    dsimp only
    rw [show jsSortQuery (none : Option Chars) = none from rfl]
    have hser := serializeUrl_strip
      ⟨obj.scheme, none, obj.host, obj.port, obj.path, none, none, false⟩
      rfl rfl rfl rfl
    rw [hser]
    have : originChars ⟨obj.scheme, none, obj.host, obj.port, obj.path, none, none, false⟩ =
        originChars obj := by
      simp [originChars]
    rw [this]
  exact ⟨hcn, by unfold cacheKey; rw [hcn]⟩

/-- Witness for C9 at a concrete accepted URL. -/
theorem C9_cache_key_verbatim_witness :
    cacheNormalizeUrl "https://example.com/page" = "https://example.com/page" ∧
    cacheKey "https://example.com/page" = "prerender:" ++ "https://example.com/page" :=
  C9_cache_key_verbatim [] "https://example.com/page?x=1#frag" "https://example.com/page"
    (by decide)

/-! ## Claim C2: normalization idempotence -/

/-- C2 counterexample: normalization is not idempotent.  The accepted
input `https://example.com/a%252Fb` normalizes to
`https://example.com/a%2Fb`; feeding that canonical URL back to the
Resolver percent-decodes it again and yields the different canonical URL
`https://example.com/a/b`. -/
theorem C2_not_idempotent_counterexample :
    validateUrl [] (some "https://example.com/a%252Fb") =
      .valid "https://example.com/a%2Fb" ∧
    validateUrl [] (some "https://example.com/a%2Fb") =
      .valid "https://example.com/a/b" ∧
    ("https://example.com/a/b" : String) ≠ "https://example.com/a%2Fb" :=
  ⟨by decide, by decide, by decide⟩

/-- C2 (amended): normalization is idempotent on every accepted input
whose canonical output is left unchanged by the once-applied
percent-decoding step — re-validating such a canonical URL yields it
unchanged.  (Without that proviso the claim is false, see the
counterexample: a canonical URL containing a decodable `%XX` sequence is
decoded again on the second pass.) -/
theorem C2_idempotent_amended (ad : List String) (us c : String)
    (h : validateUrl ad (some us) = .valid c)
    (hfix : decodeOnce c.data = c.data) :
    validateUrl ad (some c) = .valid c := by
  obtain ⟨obj, hc, hscheme, hh1, hh2, hh3, hport, hfixp, hamp, hallow⟩ :=
    validateUrl_valid_inv ad us c h
  have hre := canonical_reparse obj hscheme hh1 hh2 hh3 hport hfixp
  have hcne : c ≠ "" := by
    rw [hc]
    intro hcontra
    have hdat : originChars obj ++ obj.path = [] := congrArg String.data hcontra
    rcases hscheme with h2 | h2 <;> simp [originChars, h2] at hdat
  unfold validateUrl
  dsimp only
  rw [if_neg hcne]
  rw [hfix]
  rw [hc]
  dsimp only
  rw [hre]
  dsimp only
  have hobj2 : ampTruncate ⟨obj.scheme, none, obj.host, obj.port, obj.path, none, none, false⟩ =
      ⟨obj.scheme, none, obj.host, obj.port, obj.path, none, none, false⟩ := by
    unfold ampTruncate
    rw [if_neg]
    intro hcontra
    rw [show (⟨obj.scheme, none, obj.host, obj.port, obj.path, none, none, false⟩ :
      UrlObj).path = obj.path from rfl] at hcontra
    rw [hamp] at hcontra
    exact Bool.noConfusion hcontra
  rw [hobj2]
  have hs2 : (⟨obj.scheme, none, obj.host, obj.port, obj.path, none, none, false⟩ :
      UrlObj).scheme ++ [':'] = "http:".data ∨
      (⟨obj.scheme, none, obj.host, obj.port, obj.path, none, none, false⟩ :
      UrlObj).scheme ++ [':'] = "https:".data := by
    rcases hscheme with h2 | h2
    · exact Or.inl (by rw [show (⟨obj.scheme, none, obj.host, obj.port, obj.path, none,
        none, false⟩ : UrlObj).scheme = obj.scheme from rfl, h2]; rfl)
    · exact Or.inr (by rw [show (⟨obj.scheme, none, obj.host, obj.port, obj.path, none,
        none, false⟩ : UrlObj).scheme = obj.scheme from rfl, h2]; rfl)
  rw [if_neg (not_not_intro hs2)]
  rw [if_neg]
  · have : originChars ⟨obj.scheme, none, obj.host, obj.port, obj.path, none, none, false⟩ =
        originChars obj := by
      simp [originChars]
    rw [show (⟨obj.scheme, none, obj.host, obj.port, obj.path, none, none, false⟩ :
      UrlObj).path = obj.path from rfl, this]
  · rcases hallow with h2 | h2
    · simp [h2]
    · intro hcontra
      exact hcontra.2 (by simpa using h2)

/-- Witness for the amended C2 at a concrete accepted input. -/
theorem C2_idempotent_amended_witness :
    validateUrl [] (some "https://example.com/page") = .valid "https://example.com/page" :=
  C2_idempotent_amended [] "https://example.com/page?x=1#f" "https://example.com/page"
    (by decide) (by decide)

/-! ## Query/fragment-suffix irrelevance -/

theorem dropWhile_head_false {α : Type} {p : α → Bool} {s : List α} {c : α} {rest : List α}
    (h : s.dropWhile p = c :: rest) : p c = false := by
  induction s with
  | nil => simp at h
  | cons a r ih =>
    rw [List.dropWhile_cons] at h
    by_cases ha : p a = true
    · rw [ha] at h
      simp only [if_true] at h
      exact ih h
    · rw [Bool.not_eq_true] at ha
      rw [ha] at h
      simp only [Bool.false_eq_true, if_false] at h
      cases h
      exact ha

theorem span_all {α : Type} {p : α → Bool} {s : List α} (h : s.dropWhile p = []) :
    ∀ t : List α, (s ++ t).takeWhile p = s ++ t.takeWhile p ∧
      (s ++ t).dropWhile p = t.dropWhile p := by
  intro t
  have hall : ∀ a ∈ s, p a = true := by
    intro a ha
    have hdecomp := List.takeWhile_append_dropWhile (p := p) (l := s)
    rw [h, List.append_nil] at hdecomp
    exact List.mem_takeWhile_imp (by rw [hdecomp]; exact ha)
  exact ⟨takeWhile_append_every hall, dropWhile_append_every hall⟩

theorem span_decomp {α : Type} {p : α → Bool} {s : List α} {c : α} {rest : List α}
    (h : s.dropWhile p = c :: rest) :
    ∀ t : List α, (s ++ t).takeWhile p = s.takeWhile p ∧
      (s ++ t).dropWhile p = c :: (rest ++ t) := by
  intro t
  have hc : p c = false := dropWhile_head_false h
  have hdecomp := List.takeWhile_append_dropWhile (p := p) (l := s)
  have htw : ∀ a ∈ s.takeWhile p, p a = true := fun a ha => List.mem_takeWhile_imp ha
  have hst : s ++ t = s.takeWhile p ++ c :: (rest ++ t) := by
    conv_lhs => rw [← hdecomp]
    rw [h]
    simp
  rw [hst, takeWhile_append_stop htw hc, dropWhile_append_stop htw hc]
  constructor
  · rfl
  · rfl

theorem takeWhile_stop_suffix {p : Char → Bool} (r q0 : Chars) (d : Char)
    (hd : p d = false) :
    (r ++ d :: q0).takeWhile p = r.takeWhile p := by
  cases hdw : r.dropWhile p with
  | nil =>
    rw [(span_all hdw (d :: q0)).1, List.takeWhile_cons, hd]
    have hdecomp := List.takeWhile_append_dropWhile (p := p) (l := r)
    rw [hdw, List.append_nil] at hdecomp
    simp [hdecomp]
  | cons c rest => exact (span_decomp hdw (d :: q0)).1

theorem dropWhile_stop_suffix {p : Char → Bool} (r q0 : Chars) (d : Char)
    (hd : p d = false) :
    (r ++ d :: q0).dropWhile p = r.dropWhile p ++ d :: q0 := by
  cases hdw : r.dropWhile p with
  | nil =>
    rw [(span_all hdw (d :: q0)).2, List.dropWhile_cons, hd]
    simp [hdw]
  | cons c rest =>
    rw [(span_decomp hdw (d :: q0)).2]
    simp

theorem parseAfterScheme_qf_suffix (scheme r1 q0 : Chars) (d : Char)
    (hd6 : d = '?' ∨ d = '#') :
    (parseAfterScheme scheme (r1 ++ d :: q0)).map stripQF =
      (parseAfterScheme scheme r1).map stripQF := by
  have hd_sep : isSep d = false := by
    rcases hd6 with h | h <;> subst h <;> decide
  have hd_auth : (fun c => (¬ isAuthEnd c : Bool)) d = false := by
    rcases hd6 with h | h <;> subst h <;> decide
  have hd_path : (fun c => (¬ isPathEnd c : Bool)) d = false := by
    rcases hd6 with h | h <;> subst h <;> decide
  have hd_slash : d ≠ '/' := by
    rcases hd6 with h | h <;> subst h <;> decide
  unfold parseAfterScheme
  by_cases hsp : scheme ∈ specialSchemes
  · rw [if_pos hsp, if_pos hsp]
    match r1 with
    | [] =>
      simp only [List.nil_append]
      cases q0 with
      | nil => rfl
      | cons x xs =>
        dsimp only
        rw [if_neg (fun hcontra => hd_slash hcontra.1)]
    | [c1] =>
      simp only [List.cons_append, List.nil_append]
      rw [if_neg (fun hcontra => hd_slash hcontra.2)]
    | c1 :: c2 :: r2 =>
      simp only [List.cons_append]
      by_cases hslash : c1 = '/' ∧ c2 = '/'
      · rw [if_pos hslash, if_pos hslash]
        rw [dropWhile_stop_suffix (p := isSep) r2 q0 d hd_sep]
        rw [takeWhile_stop_suffix (p := fun c => ¬ isAuthEnd c) (r2.dropWhile isSep) q0 d
          hd_auth]
        rw [dropWhile_stop_suffix (p := fun c => ¬ isAuthEnd c) (r2.dropWhile isSep) q0 d
          hd_auth]
        rw [takeWhile_stop_suffix (p := fun c => ¬ isPathEnd c)
          ((r2.dropWhile isSep).dropWhile (fun c => ¬ isAuthEnd c)) q0 d hd_path]
        cases hpa : parseAuthority scheme
            ((r2.dropWhile isSep).takeWhile (fun c => ¬ isAuthEnd c)) with
        | none => rfl
        | some u0 =>
          dsimp only
          simp [stripQF]
      · rw [if_neg hslash, if_neg hslash]
  · rw [if_neg hsp, if_neg hsp]
    dsimp only
    rw [takeWhile_stop_suffix (p := fun c => ¬ isPathEnd c) r1 q0 d hd_path]
    simp [stripQF]

/-! ## Decoding distributes over a query/fragment suffix -/

theorem pctTokens_cons_ne (c : Char) (rest : Chars) (hc : c ≠ '%') :
    pctTokens (c :: rest) = (PctTok.raw c :: ·) <$> pctTokens rest := by
  rw [pctTokens.eq_def]
  split
  · rename_i heq; exact absurd heq.symm (by simp)
  · rename_i a x r2 heq
    rw [List.cons.injEq] at heq
    exact absurd heq.1 hc
  · rename_i tail heq
    rw [List.cons.injEq] at heq
    exact absurd heq.1 hc
  · rename_i c2 r2 h1 h2 heq
    rw [List.cons.injEq] at heq
    rw [heq.1, heq.2]

theorem pctTokens_append (q : Chars)
    (hq : ∀ a rest, q = a :: rest → hexVal a = none ∧ a ≠ '%') :
    ∀ b : Chars, pctTokens (b ++ q) =
      match pctTokens b, pctTokens q with
      | some tb, some tq => some (tb ++ tq)
      | _, _ => none := by
  intro b
  induction b using pctTokens.induct with
  | case1 =>
    simp only [List.nil_append, pctTokens]
    cases pctTokens q <;> rfl
  | case2 a x rest ha hx hhx hha ih =>
    simp only [List.cons_append, pctTokens, hha, hhx, List.append_eq]
    rw [ih]
    cases pctTokens rest <;> cases pctTokens q <;> simp
  | case3 a x rest hfail =>
    simp only [List.cons_append, pctTokens]
  | case4 tail htail =>
    cases tail with
    | nil =>
      cases hq0 : q with
      | nil => rfl
      | cons d q0 =>
        cases q0 with
        | nil => rfl
        | cons e q1 =>
          have := (hq d (e :: q1) hq0).1
          simp only [List.cons_append, List.nil_append, pctTokens, this]
    | cons a tl =>
      cases tl with
      | nil =>
        cases hq0 : q with
        | nil => rfl
        | cons d q0 =>
          have hd := (hq d q0 hq0).1
          simp only [List.cons_append, List.nil_append, pctTokens, hd]
          cases hexVal a <;> rfl
      | cons x tl2 => exact absurd (htail a x tl2 rfl) (fun h => h)
  | case5 c rest hc1 hc2 ih =>
    have hcne : c ≠ '%' := fun hcontra => hc2 hcontra
    rw [List.cons_append, pctTokens_cons_ne c (rest ++ q) hcne,
      pctTokens_cons_ne c rest hcne, ih]
    cases pctTokens rest <;> cases pctTokens q <;> simp

theorem optAppend_none_left (o : Option Chars) : optAppend none o = none := by
  cases o <;> rfl

theorem optAppend_none_right (o : Option Chars) : optAppend o none = none := by
  cases o <;> rfl

theorem optAppend_nil_right (o : Option Chars) : optAppend o (some []) = o := by
  cases o <;> simp [optAppend]

theorem optAppend_nil_left (o : Option Chars) : optAppend (some []) o = o := by
  cases o <;> simp [optAppend]

theorem optAppend_map_cons (c : Char) (o1 o2 : Option Chars) :
    optAppend ((c :: ·) <$> o1) o2 = (c :: ·) <$> optAppend o1 o2 := by
  cases o1 <;> cases o2 <;> simp [optAppend]

theorem optAppend_singleton (x : Char) (o : Option Chars) :
    optAppend (some [x]) o = (x :: ·) <$> o := by
  cases o <;> simp [optAppend]

theorem cons_map_some (c : Char) (a : Chars) :
    (c :: ·) <$> (some a : Option Chars) = some (c :: a) := rfl

theorem cons_map_none (c : Char) :
    (c :: ·) <$> (none : Option Chars) = none := rfl

set_option maxHeartbeats 1000000 in
set_option maxRecDepth 4096 in
theorem utf8Join_append (tq : List PctTok)
    (hq : tq = [] ∨ ∃ c tq0, tq = PctTok.raw c :: tq0) :
    ∀ tb : List PctTok, utf8Join (tb ++ tq) = optAppend (utf8Join tb) (utf8Join tq) := by
  rcases hq with rfl | ⟨c0, tq0, rfl⟩
  · intro tb
    simp [optAppend_nil_right, utf8Join]
  · intro tb
    induction tb using utf8Join.induct with
    | case1 => simp_all only [utf8Join, List.cons_append, List.nil_append, List.append_nil, optAppend_none_left, optAppend_none_right, optAppend_nil_left, optAppend_nil_right, optAppend_map_cons, optAppend_singleton, cons_map_some, cons_map_none, ite_true, ite_false, and_true, true_and, and_self, not_false_eq_true, List.append_eq]
    | case2 => simp_all only [utf8Join, List.cons_append, List.nil_append, List.append_nil, optAppend_none_left, optAppend_none_right, optAppend_nil_left, optAppend_nil_right, optAppend_map_cons, optAppend_singleton, cons_map_some, cons_map_none, ite_true, ite_false, and_true, true_and, and_self, not_false_eq_true, List.append_eq]
    | case3 => simp_all only [utf8Join, List.cons_append, List.nil_append, List.append_nil, optAppend_none_left, optAppend_none_right, optAppend_nil_left, optAppend_nil_right, optAppend_map_cons, optAppend_singleton, cons_map_some, cons_map_none, ite_true, ite_false, and_true, true_and, and_self, not_false_eq_true, List.append_eq]
    | case4 => simp_all only [utf8Join, List.cons_append, List.nil_append, List.append_nil, optAppend_none_left, optAppend_none_right, optAppend_nil_left, optAppend_nil_right, optAppend_map_cons, optAppend_singleton, cons_map_some, cons_map_none, ite_true, ite_false, and_true, true_and, and_self, not_false_eq_true, List.append_eq]
    | case5 => simp_all only [utf8Join, List.cons_append, List.nil_append, List.append_nil, optAppend_none_left, optAppend_none_right, optAppend_nil_left, optAppend_nil_right, optAppend_map_cons, optAppend_singleton, cons_map_some, cons_map_none, ite_true, ite_false, and_true, true_and, and_self, not_false_eq_true, List.append_eq]
    | case6 => simp_all only [utf8Join, List.cons_append, List.nil_append, List.append_nil, optAppend_none_left, optAppend_none_right, optAppend_nil_left, optAppend_nil_right, optAppend_map_cons, optAppend_singleton, cons_map_some, cons_map_none, ite_true, ite_false, and_true, true_and, and_self, not_false_eq_true, List.append_eq]
    | case7 => simp_all only [utf8Join, List.cons_append, List.nil_append, List.append_nil, optAppend_none_left, optAppend_none_right, optAppend_nil_left, optAppend_nil_right, optAppend_map_cons, optAppend_singleton, cons_map_some, cons_map_none, ite_true, ite_false, and_true, true_and, and_self, not_false_eq_true, List.append_eq]
    | case8 => simp_all only [utf8Join, List.cons_append, List.nil_append, List.append_nil, optAppend_none_left, optAppend_none_right, optAppend_nil_left, optAppend_nil_right, optAppend_map_cons, optAppend_singleton, cons_map_some, cons_map_none, ite_true, ite_false, and_true, true_and, and_self, not_false_eq_true, List.append_eq]
    | case9 => simp_all only [utf8Join, List.cons_append, List.nil_append, List.append_nil, optAppend_none_left, optAppend_none_right, optAppend_nil_left, optAppend_nil_right, optAppend_map_cons, optAppend_singleton, cons_map_some, cons_map_none, ite_true, ite_false, and_true, true_and, and_self, not_false_eq_true, List.append_eq]
    | case10 => simp_all only [utf8Join, List.cons_append, List.nil_append, List.append_nil, optAppend_none_left, optAppend_none_right, optAppend_nil_left, optAppend_nil_right, optAppend_map_cons, optAppend_singleton, cons_map_some, cons_map_none, ite_true, ite_false, and_true, true_and, and_self, not_false_eq_true, List.append_eq]
    | case11 => simp_all only [utf8Join, List.cons_append, List.nil_append, List.append_nil, optAppend_none_left, optAppend_none_right, optAppend_nil_left, optAppend_nil_right, optAppend_map_cons, optAppend_singleton, cons_map_some, cons_map_none, ite_true, ite_false, and_true, true_and, and_self, not_false_eq_true, List.append_eq]
    | case12 => simp_all only [utf8Join, List.cons_append, List.nil_append, List.append_nil, optAppend_none_left, optAppend_none_right, optAppend_nil_left, optAppend_nil_right, optAppend_map_cons, optAppend_singleton, cons_map_some, cons_map_none, ite_true, ite_false, and_true, true_and, and_self, not_false_eq_true, List.append_eq]
    | case13 => simp_all only [utf8Join, List.cons_append, List.nil_append, List.append_nil, optAppend_none_left, optAppend_none_right, optAppend_nil_left, optAppend_nil_right, optAppend_map_cons, optAppend_singleton, cons_map_some, cons_map_none, ite_true, ite_false, and_true, true_and, and_self, not_false_eq_true, List.append_eq]
    | case14 => simp_all only [utf8Join, List.cons_append, List.nil_append, List.append_nil, optAppend_none_left, optAppend_none_right, optAppend_nil_left, optAppend_nil_right, optAppend_map_cons, optAppend_singleton, cons_map_some, cons_map_none, ite_true, ite_false, and_true, true_and, and_self, not_false_eq_true, List.append_eq]
    | case15 => simp_all only [utf8Join, List.cons_append, List.nil_append, List.append_nil, optAppend_none_left, optAppend_none_right, optAppend_nil_left, optAppend_nil_right, optAppend_map_cons, optAppend_singleton, cons_map_some, cons_map_none, ite_true, ite_false, and_true, true_and, and_self, not_false_eq_true, List.append_eq]
    | case16 => simp_all only [utf8Join, List.cons_append, List.nil_append, List.append_nil, optAppend_none_left, optAppend_none_right, optAppend_nil_left, optAppend_nil_right, optAppend_map_cons, optAppend_singleton, cons_map_some, cons_map_none, ite_true, ite_false, and_true, true_and, and_self, not_false_eq_true, List.append_eq]
    | case17 => simp_all only [utf8Join, List.cons_append, List.nil_append, List.append_nil, optAppend_none_left, optAppend_none_right, optAppend_nil_left, optAppend_nil_right, optAppend_map_cons, optAppend_singleton, cons_map_some, cons_map_none, ite_true, ite_false, and_true, true_and, and_self, not_false_eq_true, List.append_eq]
    | case18 => simp_all only [utf8Join, List.cons_append, List.nil_append, List.append_nil, optAppend_none_left, optAppend_none_right, optAppend_nil_left, optAppend_nil_right, optAppend_map_cons, optAppend_singleton, cons_map_some, cons_map_none, ite_true, ite_false, and_true, true_and, and_self, not_false_eq_true, List.append_eq]
    | case19 => simp_all only [utf8Join, List.cons_append, List.nil_append, List.append_nil, optAppend_none_left, optAppend_none_right, optAppend_nil_left, optAppend_nil_right, optAppend_map_cons, optAppend_singleton, cons_map_some, cons_map_none, ite_true, ite_false, and_true, true_and, and_self, not_false_eq_true, List.append_eq]
    | case20 => simp_all only [utf8Join, List.cons_append, List.nil_append, List.append_nil, optAppend_none_left, optAppend_none_right, optAppend_nil_left, optAppend_nil_right, optAppend_map_cons, optAppend_singleton, cons_map_some, cons_map_none, ite_true, ite_false, and_true, true_and, and_self, not_false_eq_true, List.append_eq]
    | case21 => simp_all only [utf8Join, List.cons_append, List.nil_append, List.append_nil, optAppend_none_left, optAppend_none_right, optAppend_nil_left, optAppend_nil_right, optAppend_map_cons, optAppend_singleton, cons_map_some, cons_map_none, ite_true, ite_false, and_true, true_and, and_self, not_false_eq_true, List.append_eq]
    | case22 => simp_all only [utf8Join, List.cons_append, List.nil_append, List.append_nil, optAppend_none_left, optAppend_none_right, optAppend_nil_left, optAppend_nil_right, optAppend_map_cons, optAppend_singleton, cons_map_some, cons_map_none, ite_true, ite_false, and_true, true_and, and_self, not_false_eq_true, List.append_eq]
    | case23 => simp_all only [utf8Join, List.cons_append, List.nil_append, List.append_nil, optAppend_none_left, optAppend_none_right, optAppend_nil_left, optAppend_nil_right, optAppend_map_cons, optAppend_singleton, cons_map_some, cons_map_none, ite_true, ite_false, and_true, true_and, and_self, not_false_eq_true, List.append_eq]
    | case24 => simp_all only [utf8Join, List.cons_append, List.nil_append, List.append_nil, optAppend_none_left, optAppend_none_right, optAppend_nil_left, optAppend_nil_right, optAppend_map_cons, optAppend_singleton, cons_map_some, cons_map_none, ite_true, ite_false, and_true, true_and, and_self, not_false_eq_true, List.append_eq]
    | case25 => simp_all only [utf8Join, List.cons_append, List.nil_append, List.append_nil, optAppend_none_left, optAppend_none_right, optAppend_nil_left, optAppend_nil_right, optAppend_map_cons, optAppend_singleton, cons_map_some, cons_map_none, ite_true, ite_false, and_true, true_and, and_self, not_false_eq_true, List.append_eq]
    | case26 => simp_all only [utf8Join, List.cons_append, List.nil_append, List.append_nil, optAppend_none_left, optAppend_none_right, optAppend_nil_left, optAppend_nil_right, optAppend_map_cons, optAppend_singleton, cons_map_some, cons_map_none, ite_true, ite_false, and_true, true_and, and_self, not_false_eq_true, List.append_eq]
    | case27 => simp_all only [utf8Join, List.cons_append, List.nil_append, List.append_nil, optAppend_none_left, optAppend_none_right, optAppend_nil_left, optAppend_nil_right, optAppend_map_cons, optAppend_singleton, cons_map_some, cons_map_none, ite_true, ite_false, and_true, true_and, and_self, not_false_eq_true, List.append_eq]
    | case28 => simp_all only [utf8Join, List.cons_append, List.nil_append, List.append_nil, optAppend_none_left, optAppend_none_right, optAppend_nil_left, optAppend_nil_right, optAppend_map_cons, optAppend_singleton, cons_map_some, cons_map_none, ite_true, ite_false, and_true, true_and, and_self, not_false_eq_true, List.append_eq]
    | case29 => simp_all only [utf8Join, List.cons_append, List.nil_append, List.append_nil, optAppend_none_left, optAppend_none_right, optAppend_nil_left, optAppend_nil_right, optAppend_map_cons, optAppend_singleton, cons_map_some, cons_map_none, ite_true, ite_false, and_true, true_and, and_self, not_false_eq_true, List.append_eq]
    | case30 => simp_all only [utf8Join, List.cons_append, List.nil_append, List.append_nil, optAppend_none_left, optAppend_none_right, optAppend_nil_left, optAppend_nil_right, optAppend_map_cons, optAppend_singleton, cons_map_some, cons_map_none, ite_true, ite_false, and_true, true_and, and_self, not_false_eq_true, List.append_eq]
    | case31 => simp_all only [utf8Join, List.cons_append, List.nil_append, List.append_nil, optAppend_none_left, optAppend_none_right, optAppend_nil_left, optAppend_nil_right, optAppend_map_cons, optAppend_singleton, cons_map_some, cons_map_none, ite_true, ite_false, and_true, true_and, and_self, not_false_eq_true, List.append_eq]
    | case32 => simp_all only [utf8Join, List.cons_append, List.nil_append, List.append_nil, optAppend_none_left, optAppend_none_right, optAppend_nil_left, optAppend_nil_right, optAppend_map_cons, optAppend_singleton, cons_map_some, cons_map_none, ite_true, ite_false, and_true, true_and, and_self, not_false_eq_true, List.append_eq]
    | case33 => simp_all only [utf8Join, List.cons_append, List.nil_append, List.append_nil, optAppend_none_left, optAppend_none_right, optAppend_nil_left, optAppend_nil_right, optAppend_map_cons, optAppend_singleton, cons_map_some, cons_map_none, ite_true, ite_false, and_true, true_and, and_self, not_false_eq_true, List.append_eq]
    | case34 => simp_all only [utf8Join, List.cons_append, List.nil_append, List.append_nil, optAppend_none_left, optAppend_none_right, optAppend_nil_left, optAppend_nil_right, optAppend_map_cons, optAppend_singleton, cons_map_some, cons_map_none, ite_true, ite_false, and_true, true_and, and_self, not_false_eq_true, List.append_eq]
    | case35 => simp_all only [utf8Join, List.cons_append, List.nil_append, List.append_nil, optAppend_none_left, optAppend_none_right, optAppend_nil_left, optAppend_nil_right, optAppend_map_cons, optAppend_singleton, cons_map_some, cons_map_none, ite_true, ite_false, and_true, true_and, and_self, not_false_eq_true, List.append_eq]
    | case36 => simp_all only [utf8Join, List.cons_append, List.nil_append, List.append_nil, optAppend_none_left, optAppend_none_right, optAppend_nil_left, optAppend_nil_right, optAppend_map_cons, optAppend_singleton, cons_map_some, cons_map_none, ite_true, ite_false, and_true, true_and, and_self, not_false_eq_true, List.append_eq]
    | case37 => simp_all only [utf8Join, List.cons_append, List.nil_append, List.append_nil, optAppend_none_left, optAppend_none_right, optAppend_nil_left, optAppend_nil_right, optAppend_map_cons, optAppend_singleton, cons_map_some, cons_map_none, ite_true, ite_false, and_true, true_and, and_self, not_false_eq_true, List.append_eq]
    | case38 => simp_all only [utf8Join, List.cons_append, List.nil_append, List.append_nil, optAppend_none_left, optAppend_none_right, optAppend_nil_left, optAppend_nil_right, optAppend_map_cons, optAppend_singleton, cons_map_some, cons_map_none, ite_true, ite_false, and_true, true_and, and_self, not_false_eq_true, List.append_eq]

theorem parseScheme_qf_suffix (l q0 : Chars) (d : Char) (hd : d = '?' ∨ d = '#') :
    parseScheme (l ++ d :: q0) =
      (parseScheme l).map (fun p => (p.1, p.2 ++ d :: q0)) := by
  have hdsc : ¬ isSchemeChar d = true := by rcases hd with rfl | rfl <;> decide
  unfold parseScheme
  cases hdw : l.dropWhile isSchemeChar with
  | nil =>
    rw [(span_all hdw (d :: q0)).2, List.dropWhile_cons_of_neg hdsc]
    split
    · rename_i rest heq
      rw [List.cons.injEq] at heq
      rcases hd with rfl | rfl <;> exact absurd heq.1 (by decide)
    · rfl
  | cons c r =>
    rw [(span_decomp hdw (d :: q0)).1, (span_decomp hdw (d :: q0)).2]
    by_cases hc : c = ':'
    · subst hc
      cases hs : l.takeWhile isSchemeChar with
      | nil => rfl
      | cons c0 s0 =>
        show (if isAlphaChar c0 = true then
            some ((c0 :: s0).map lowChar, r ++ d :: q0) else none) =
          Option.map (fun p => (p.1, p.2 ++ d :: q0))
            (if isAlphaChar c0 = true then some ((c0 :: s0).map lowChar, r) else none)
        by_cases ha : isAlphaChar c0 = true
        · rw [if_pos ha, if_pos ha]
          rfl
        · rw [if_neg ha, if_neg ha]
          rfl
    · split
      · rename_i rest heq
        rw [List.cons.injEq] at heq
        exact absurd heq.1 hc
      · split
        · rename_i rest2 heq2
          rw [List.cons.injEq] at heq2
          exact absurd heq2.1 hc
        · rfl

theorem parseUrl_qf_suffix (l q0 : Chars) (d : Char) (hd : d = '?' ∨ d = '#') :
    (parseUrl (l ++ d :: q0)).map stripQF = (parseUrl l).map stripQF := by
  unfold parseUrl
  rw [parseScheme_qf_suffix l q0 d hd]
  cases hps : parseScheme l with
  | none => rfl
  | some p =>
    obtain ⟨scheme, r1⟩ := p
    dsimp only [Option.map]
    exact parseAfterScheme_qf_suffix scheme r1 q0 d hd

theorem decodeUriComp_qf_append (b q0 : Chars) (d : Char) (hd : d = '?' ∨ d = '#') :
    decodeUriComp (b ++ d :: q0) =
      optAppend (decodeUriComp b) (decodeUriComp (d :: q0)) := by
  have hdh : hexVal d = none ∧ d ≠ '%' := by
    rcases hd with rfl | rfl <;> exact ⟨by decide, by decide⟩
  have hpt := pctTokens_append (d :: q0)
    (fun a rest h => by
      rw [List.cons.injEq] at h
      obtain ⟨ha, _⟩ := h
      subst ha
      exact hdh) b
  unfold decodeUriComp
  rw [hpt]
  cases hb : pctTokens b with
  | none =>
    rw [show ((none : Option (List PctTok)) >>= utf8Join) = none from rfl,
      optAppend_none_left]
  | some tb =>
    cases hq : pctTokens (d :: q0) with
    | none =>
      rw [show ((none : Option (List PctTok)) >>= utf8Join) = none from rfl,
        optAppend_none_right]
    | some tq =>
      have hq' : ∃ t0, tq = PctTok.raw d :: t0 := by
        rw [pctTokens_cons_ne d q0 hdh.2] at hq
        cases hpq : pctTokens q0 with
        | none => rw [hpq] at hq; exact absurd hq (by simp)
        | some t0 =>
          rw [hpq] at hq
          have hq2 : some (PctTok.raw d :: t0) = some tq := hq
          exact ⟨t0, (Option.some.inj hq2).symm⟩
      obtain ⟨t0, rfl⟩ := hq'
      show utf8Join (tb ++ (PctTok.raw d :: t0)) =
        optAppend (utf8Join tb) (utf8Join (PctTok.raw d :: t0))
      exact utf8Join_append _ (Or.inr ⟨d, t0, rfl⟩) tb

theorem decodeUriComp_qf_head (q0 : Chars) (d : Char) (hd : d = '?' ∨ d = '#')
    (r : Chars) (h : decodeUriComp (d :: q0) = some r) : ∃ r0, r = d :: r0 := by
  have hdn : d ≠ '%' := by rcases hd with rfl | rfl <;> decide
  unfold decodeUriComp at h
  rw [pctTokens_cons_ne d q0 hdn] at h
  cases hpq : pctTokens q0 with
  | none => rw [hpq] at h; exact absurd h (by simp)
  | some t0 =>
    rw [hpq] at h
    have h2 : utf8Join (PctTok.raw d :: t0) = some r := h
    rw [show utf8Join (PctTok.raw d :: t0) = (d :: ·) <$> utf8Join t0 from rfl] at h2
    cases hj : utf8Join t0 with
    | none => rw [hj] at h2; exact absurd h2 (by simp)
    | some s =>
      rw [hj] at h2
      have h3 : some (d :: s) = some r := h2
      exact ⟨s, (Option.some.inj h3).symm⟩

theorem validateUrl_parse_congr (ad : List String) (u1 u2 : String)
    (h1 : ¬ u1 = "") (h2 : ¬ u2 = "")
    (hp : (parseUrl (decodeOnce u1.data)).map stripQF =
          (parseUrl (decodeOnce u2.data)).map stripQF) :
    validateUrl ad (some u1) = validateUrl ad (some u2) := by
  unfold validateUrl
  dsimp only
  rw [if_neg h1, if_neg h2]
  cases hq1 : parseUrl (decodeOnce u1.data) with
  | none =>
    rw [hq1] at hp
    cases hq2 : parseUrl (decodeOnce u2.data) with
    | none => rfl
    | some o2 => rw [hq2] at hp; exact absurd hp (by simp)
  | some o1 =>
    rw [hq1] at hp
    cases hq2 : parseUrl (decodeOnce u2.data) with
    | none => rw [hq2] at hp; exact absurd hp (by simp)
    | some o2 =>
      rw [hq2] at hp
      simp only [Option.map_some'] at hp
      have hso : stripQF o1 = stripQF o2 := Option.some.inj hp
      dsimp only
      rw [show ({ o1 with query := none, fragment := none } : UrlObj) = stripQF o1 from rfl,
        show ({ o2 with query := none, fragment := none } : UrlObj) = stripQF o2 from rfl, hso]

theorem String_mk_ne_empty (l : Chars) (h : l ≠ []) : ¬ (String.mk l = "") := by
  intro hc
  exact h (congrArg String.data hc)

theorem validateUrl_qf_suffix (ad : List String) (b q0 : Chars) (d : Char)
    (hd : d = '?' ∨ d = '#') (hb : b ≠ [])
    (hdb : decodeUriComp b ≠ none) (hdq : decodeUriComp (d :: q0) ≠ none) :
    validateUrl ad (some (String.mk (b ++ d :: q0))) =
      validateUrl ad (some (String.mk b)) := by
  obtain ⟨db, hdb'⟩ := Option.ne_none_iff_exists'.mp hdb
  obtain ⟨dq, hdq'⟩ := Option.ne_none_iff_exists'.mp hdq
  obtain ⟨dq0, rfl⟩ := decodeUriComp_qf_head q0 d hd dq hdq'
  apply validateUrl_parse_congr
  · exact String_mk_ne_empty _ (by simp)
  · exact String_mk_ne_empty _ hb
  · have h1 : decodeOnce (String.mk (b ++ d :: q0)).data = db ++ d :: dq0 := by
      show decodeOnce (b ++ d :: q0) = _
      unfold decodeOnce
      rw [decodeUriComp_qf_append b q0 d hd, hdb', hdq']
      rfl
    have h2 : decodeOnce (String.mk b).data = db := by
      show decodeOnce b = _
      unfold decodeOnce
      rw [hdb']
      rfl
    rw [h1, h2]
    exact parseUrl_qf_suffix db dq0 d hd

theorem validateUrl_valid_no_qf (ad : List String) (us c : String)
    (h : validateUrl ad (some us) = .valid c) :
    ∀ ch ∈ c.data, ch ≠ '?' ∧ ch ≠ '#' := by
  obtain ⟨obj, hc, hscheme, hhne, hhost, hlow, hport, hcanon, hamp, hallow⟩ :=
    validateUrl_valid_inv ad us c h
  intro ch hch
  rw [hc] at hch
  have hch' : ch ∈ originChars obj ++ obj.path := hch
  rcases List.mem_append.mp hch' with hor | hpa
  · unfold originChars at hor
    rcases List.mem_append.mp hor with hor2 | hps
    · rcases List.mem_append.mp hor2 with hsc | hho
      · rcases List.mem_append.mp hsc with hs | hsl
        · rcases hscheme with he | he <;> rw [he] at hs <;> fin_cases hs <;> exact ⟨by decide, by decide⟩
        · fin_cases hsl <;> exact ⟨by decide, by decide⟩
      · have hf : forbiddenHostChar ch = false := by
          rw [List.any_eq_false] at hhost
          exact Bool.eq_false_iff.mpr (hhost ch hho)
        constructor <;> intro hcontra <;> subst hcontra <;> exact absurd hf (by decide)
    · cases hpo : obj.port with
      | none => rw [hpo] at hps; exact absurd hps (by simp [portSer])
      | some n =>
        rw [hpo] at hps
        rcases List.mem_cons.mp hps with rfl | hdig
        · exact ⟨by decide, by decide⟩
        · have hb := natDigits_toNat n ch hdig
          constructor <;> intro hcontra <;> subst hcontra <;> exact absurd hb (by decide)
  · rw [← hcanon] at hpa
    have hpe := canonPath_not_pathEnd obj.path ch hpa
    constructor <;> intro hcontra <;> subst hcontra <;> exact absurd hpe (by decide)

/-! ## Claim C5: query/fragment invariance of the canonical URL -/

/-- C5 counterexample: two Resolver inputs identical except for the query
string do not always produce the same canonical URL.  The base input
`https://example.com/a%2Fb` decodes successfully and canonicalizes to
`https://example.com/a/b`, but appending the query string `?%zz` makes
`decodeURIComponent` throw, so `validateUrl` falls back to the raw
string and canonicalizes to `https://example.com/a%2Fb` instead. -/
theorem C5_qf_not_invariant_counterexample :
    "https://example.com/a%2Fb?%zz".data =
      "https://example.com/a%2Fb".data ++ '?' :: "%zz".data ∧
    validateUrl [] (some "https://example.com/a%2Fb") =
      .valid "https://example.com/a/b" ∧
    validateUrl [] (some "https://example.com/a%2Fb?%zz") =
      .valid "https://example.com/a%2Fb" ∧
    ("https://example.com/a/b" : String) ≠ "https://example.com/a%2Fb" :=
  ⟨by decide, by decide, by decide, by decide⟩

/-- C5 (amended): for inputs that are a common base followed by a query
string (`?...`) or fragment (`#...`) suffix — possibly empty — the
Resolver produces the same canonical URL, provided `decodeURIComponent`
succeeds on the base and on each suffix (so the raw-fallback asymmetry of
the counterexample cannot occur); moreover the canonical form contains no
`?` and no `#`, hence no query string or fragment. -/
theorem C5_qf_invariance_amended (ad : List String) (b s1 s2 : Chars)
    (hb : b ≠ [])
    (h1 : s1 = [] ∨ ∃ d q0, (d = '?' ∨ d = '#') ∧ s1 = d :: q0)
    (h2 : s2 = [] ∨ ∃ d q0, (d = '?' ∨ d = '#') ∧ s2 = d :: q0)
    (hdb : decodeUriComp b ≠ none)
    (hd1 : decodeUriComp s1 ≠ none)
    (hd2 : decodeUriComp s2 ≠ none) :
    validateUrl ad (some (String.mk (b ++ s1))) =
      validateUrl ad (some (String.mk (b ++ s2))) ∧
    ∀ c, validateUrl ad (some (String.mk (b ++ s1))) = .valid c →
      ∀ ch ∈ c.data, ch ≠ '?' ∧ ch ≠ '#' := by
  have key : ∀ s, (s = [] ∨ ∃ d q0, (d = '?' ∨ d = '#') ∧ s = d :: q0) →
      decodeUriComp s ≠ none →
      validateUrl ad (some (String.mk (b ++ s))) =
        validateUrl ad (some (String.mk b)) := by
    intro s hs hds
    rcases hs with rfl | ⟨d, q0, hd, rfl⟩
    · rw [List.append_nil]
    · exact validateUrl_qf_suffix ad b q0 d hd hb hdb hds
  refine ⟨?_, ?_⟩
  · rw [key s1 h1 hd1, key s2 h2 hd2]
  · intro c hv
    exact validateUrl_valid_no_qf ad _ c hv

theorem C5_qf_invariance_amended_witness :
    validateUrl []
        (some (String.mk ("https://example.com/a".data ++ '?' :: "x=1".data))) =
      validateUrl []
        (some (String.mk ("https://example.com/a".data ++ '#' :: "frag".data))) ∧
    ∀ c, validateUrl []
        (some (String.mk ("https://example.com/a".data ++ '?' :: "x=1".data))) = .valid c →
      ∀ ch ∈ c.data, ch ≠ '?' ∧ ch ≠ '#' :=
  C5_qf_invariance_amended [] "https://example.com/a".data
    ('?' :: "x=1".data) ('#' :: "frag".data)
    (by decide)
    (Or.inr ⟨'?', "x=1".data, Or.inl rfl, rfl⟩)
    (Or.inr ⟨'#', "frag".data, Or.inr rfl, rfl⟩)
    (by decide) (by decide) (by decide)
